import Mathlib

/-!
Verification development for the wordbank POS-audit pipeline
(`build_refined_wordbanks.py`).

The Python source is shallowly embedded: every definition below mirrors one
function or constant of the source file, working over `List Char` / `String`
for text, `Nat`/`Int` for Python ints, and `ℚ` for Python floats (the float
arithmetic of the source only ever multiplies small integers by small decimal
constants and compares the results, which is exact at these magnitudes, so
rationals model it faithfully).  Each claim of the specification is settled by
one theorem about these definitions.
-/

set_option maxHeartbeats 1000000

namespace WB

/-! ## Character classes and elementary text utilities -/

/-- Character test mirroring the character class `\s` of Python regular
expressions over `str` (also used for `str.strip()`): ASCII whitespace,
the C1 separators, NEL, NBSP and the Unicode space separators. -/
def isPySpace (c : Char) : Bool :=
  let n := c.toNat
  n == 32 || n == 9 || n == 10 || n == 11 || n == 12 || n == 13 ||
  (decide (28 ≤ n) && decide (n ≤ 31)) || n == 0x85 || n == 0xa0 || n == 0x1680 ||
  (decide (0x2000 ≤ n) && decide (n ≤ 0x200a)) || n == 0x2028 || n == 0x2029 ||
  n == 0x202f || n == 0x205f || n == 0x3000

/-- Apostrophe character (written by code point to keep the file plain ASCII
friendly). -/
def aposChar : Char := Char.ofNat 39

/-- Backtick character. -/
def backChar : Char := Char.ofNat 96

/-- Right single quotation mark. -/
def rsqChar : Char := Char.ofNat 0x2019

/-- Byte-order mark. -/
def bomChar : Char := Char.ofNat 0xFEFF

/-- Ideographic space. -/
def ideoSpace : Char := Char.ofNat 0x3000

/-- Replacement step of `clean_text`: the ideographic space, carriage return
and line feed each become an ASCII space (`.replace` chain of the source). -/
def replNl (c : Char) : Char :=
  if c = ideoSpace ∨ c = Char.ofNat 13 ∨ c = Char.ofNat 10 then ' ' else c

/-- Collapse of maximal runs of `bad` characters into a single ASCII space,
mirroring `re.sub(r"<class>+", " ", text)`.  The flag records whether the
previous character belonged to a run. -/
def runRep (bad : Char → Bool) : Bool → List Char → List Char
  | _, [] => []
  | prevB, c :: l =>
    if bad c then
      (if prevB then runRep bad true l else ' ' :: runRep bad true l)
    else c :: runRep bad false l

/-- Removal of leading and trailing characters satisfying `p`, mirroring
Python `str.strip`. -/
def stripEnds (p : Char → Bool) (l : List Char) : List Char :=
  ((l.dropWhile p).reverse.dropWhile p).reverse

/-- List-level body of `clean_text`: drop BOMs, replace ideographic
space / CR / LF by a space, collapse whitespace runs, strip. -/
def cleanL (l : List Char) : List Char :=
  stripEnds isPySpace
    (runRep isPySpace false ((l.filter (fun c => !(c == bomChar))).map replNl))

/-- Embedding of `clean_text` from the source. -/
def clean_text (s : String) : String := ⟨cleanL s.data⟩

/-- Model of `unicodedata.normalize("NFKC", ·)` restricted to character-wise
action on the code points exercised by this pipeline: the full-width ASCII
variants U+FF01–U+FF5E fold to ASCII and the ideographic space folds to an
ASCII space; all other characters (ASCII, kana, kanji, punctuation) are NFKC
fixed points and are left unchanged. -/
def nfkcChar (c : Char) : Char :=
  let n := c.toNat
  if 0xFF01 ≤ n ∧ n ≤ 0xFF5E then Char.ofNat (n - 0xFEE0)
  else if n = 0x3000 then ' '
  else c

/-- Model of Python `str.lower` on the code points exercised here: ASCII and
full-width Latin capitals are lowered, everything else is unchanged. -/
def pyLower (c : Char) : Char :=
  let n := c.toNat
  if 0x41 ≤ n ∧ n ≤ 0x5A then Char.ofNat (n + 0x20)
  else if 0xFF21 ≤ n ∧ n ≤ 0xFF3A then Char.ofNat (n + 0x20)
  else c

/-- Model of Python `str.upper` on ASCII (used for group ids). -/
def pyUpper (c : Char) : Char :=
  let n := c.toNat
  if 0x61 ≤ n ∧ n ≤ 0x7A then Char.ofNat (n - 0x20) else c

/-- Lowercases a string character-wise. -/
def strLower (s : String) : String := ⟨s.data.map pyLower⟩

/-- Uppercases a string character-wise. -/
def strUpper (s : String) : String := ⟨s.data.map pyUpper⟩

/-- Punctuation class stripped by `normalize_book_name` (the character class
of its `re.sub`, without the leading `\s` which is handled separately):
hyphens/dashes, underscore, middle dots, slashes, brackets of all kinds,
colons, semicolons, commas, periods, exclamation/question marks, quotes,
backtick and at-signs, in both ASCII and full-width forms. -/
def bookPunct : List Char :=
  ['-', Char.ofNat 0x2010, Char.ofNat 0x2011, Char.ofNat 0x2012,
   Char.ofNat 0x2013, Char.ofNat 0x2014, Char.ofNat 0x2015, '_',
   Char.ofNat 0x30FB, Char.ofNat 0xFF65, '/', Char.ofNat 92,
   '(', ')', '[', ']', Char.ofNat 0x7B, Char.ofNat 0x7D,
   Char.ofNat 0x300C, Char.ofNat 0x300D, Char.ofNat 0x300E, Char.ofNat 0x300F,
   Char.ofNat 0x3010, Char.ofNat 0x3011, Char.ofNat 0x3008, Char.ofNat 0x3009,
   Char.ofNat 0x300A, Char.ofNat 0x300B,
   ':', Char.ofNat 0xFF1A, ';', Char.ofNat 0xFF1B,
   ',', Char.ofNat 0xFF0C, '.', Char.ofNat 0xFF0E,
   '!', Char.ofNat 0xFF01, '?', Char.ofNat 0xFF1F,
   Char.ofNat 34, Char.ofNat 0x201C, Char.ofNat 0x201D,
   aposChar, rsqChar, backChar, Char.ofNat 0xFF20, '@']

/-- Character class removed by `normalize_book_name`. -/
def isBookStrip (c : Char) : Bool := isPySpace c || bookPunct.contains c

/-- Small-kana unification of `normalize_book_name`. -/
def kanaRepl (c : Char) : Char :=
  if c = Char.ofNat 0x30F6 then Char.ofNat 0x30B1
  else if c = Char.ofNat 0x30F5 then Char.ofNat 0x30AB
  else c

/-- List-level body of `normalize_book_name`. -/
def nbL (l : List Char) : List Char :=
  ((((cleanL l).map nfkcChar).map pyLower).map kanaRepl).filter
    (fun c => !(isBookStrip c))

/-- Embedding of `normalize_book_name` from the source: NFKC + lower on the
cleaned text, small-kana unification, then removal of all whitespace and
punctuation. -/
def normalize_book_name (s : String) : String := ⟨nbL s.data⟩

/-- Characters kept verbatim by the `re.sub(r"[^a-z0-9'\- ]+", " ", ·)` step
of `normalize_headword`. -/
def isHwAllowed (c : Char) : Bool :=
  let n := c.toNat
  (decide (97 ≤ n) && decide (n ≤ 122)) || (decide (48 ≤ n) && decide (n ≤ 57)) ||
  c == aposChar || c == '-' || c == ' '

/-- Quote unification of `normalize_headword` (`’` and the backtick both
become the ASCII apostrophe). -/
def quoteRepl (c : Char) : Char :=
  if c = rsqChar ∨ c = backChar then aposChar else c

/-- Characters removed from both ends by the final `.strip(" -'")` of
`normalize_headword`. -/
def hwStripSet (c : Char) : Bool := c == ' ' || c == '-' || c == aposChar

/-- List-level body of `normalize_headword`. -/
def nhL (l : List Char) : List Char :=
  stripEnds hwStripSet
    (runRep isPySpace false
      (runRep (fun c => !(isHwAllowed c)) false
        ((((cleanL l).map nfkcChar).map pyLower).map quoteRepl)))

/-- Embedding of `normalize_headword` from the source. -/
def normalize_headword (s : String) : String := ⟨nhL s.data⟩

/-! ## Generic lemmas about the text utilities -/

theorem char_toNat_inj {c₁ c₂ : Char} (h : c₁.toNat = c₂.toNat) : c₁ = c₂ := by
  have h2 := congrArg Char.ofNat h
  rwa [Char.ofNat_toNat, Char.ofNat_toNat] at h2

theorem toNat_ofNat_valid {n : Nat}
    (h : n < 0xD800 ∨ (0xDFFF < n ∧ n < 0x110000)) : (Char.ofNat n).toNat = n := by
  unfold Char.ofNat
  rw [dif_pos h]
  rfl

theorem map_id_of {f : Char → Char} :
    ∀ l : List Char, (∀ c ∈ l, f c = c) → l.map f = l := by
  intro l h
  induction l with
  | nil => rfl
  | cons c l ih =>
    simp only [List.map_cons]
    rw [h c (List.mem_cons_self c l), ih (fun d hd => h d (List.mem_cons_of_mem c hd))]

theorem filter_id_of {p : Char → Bool} :
    ∀ l : List Char, (∀ c ∈ l, p c = true) → l.filter p = l := by
  intro l h
  induction l with
  | nil => rfl
  | cons c l ih =>
    rw [List.filter_cons, if_pos (h c (List.mem_cons_self c l)),
      ih (fun d hd => h d (List.mem_cons_of_mem c hd))]

/-- Membership in the output of `runRep`: each emitted character is either the
replacement space or a non-`bad` character of the input. -/
theorem runRep_mem {bad : Char → Bool} :
    ∀ (l : List Char) (b : Bool) (c : Char), c ∈ runRep bad b l →
      c = ' ' ∨ (c ∈ l ∧ bad c = false) := by
  intro l
  induction l with
  | nil => intro b c h; simp [runRep] at h
  | cons d l ih =>
    intro b c h
    by_cases hd : bad d
    · cases b with
      | true =>
        simp only [runRep, hd, if_true] at h
        rcases ih true c h with h1 | h2
        · exact Or.inl h1
        · exact Or.inr ⟨List.mem_cons_of_mem d h2.1, h2.2⟩
      | false =>
        simp only [runRep, hd, if_true] at h
        rcases List.mem_cons.mp h with h1 | h1
        · exact Or.inl h1
        · rcases ih true c h1 with h2 | h3
          · exact Or.inl h2
          · exact Or.inr ⟨List.mem_cons_of_mem d h3.1, h3.2⟩
    · simp only [runRep, hd, if_false, Bool.false_eq_true] at h
      rcases List.mem_cons.mp h with h1 | h1
      · subst h1
        exact Or.inr ⟨List.mem_cons_self c l, by simpa using hd⟩
      · rcases ih false c h1 with h2 | h3
        · exact Or.inl h2
        · exact Or.inr ⟨List.mem_cons_of_mem d h3.1, h3.2⟩

/-- The output of `runRep` with flag `true` never starts with a `bad`
character. -/
theorem runRep_true_head {bad : Char → Bool} :
    ∀ (l : List Char) (c : Char), (runRep bad true l).head? = some c →
      bad c = false := by
  intro l
  induction l with
  | nil => intro c h; simp [runRep] at h
  | cons d l ih =>
    intro c h
    by_cases hd : bad d
    · simp only [runRep, hd, if_true] at h
      exact ih c h
    · simp only [runRep, hd, if_false, Bool.false_eq_true, List.head?_cons,
        Option.some.injEq] at h
      subst h
      simpa using hd

/-- No two adjacent characters of the output of `runRep bad` are both `bad`. -/
theorem runRep_chain {bad : Char → Bool} :
    ∀ (l : List Char) (b : Bool),
      (runRep bad b l).Chain' (fun a c => ¬(bad a = true ∧ bad c = true)) := by
  intro l
  induction l with
  | nil => intro b; simp [runRep]
  | cons d l ih =>
    intro b
    by_cases hd : bad d
    · cases b with
      | true => simpa [runRep, hd] using ih true
      | false =>
        simp only [runRep, hd, if_true, Bool.false_eq_true, if_false]
        cases hrest : runRep bad true l with
        | nil => simp
        | cons e rest =>
          rw [List.chain'_cons]
          constructor
          · intro hcontra
            have he : bad e = false := runRep_true_head l e (by rw [hrest]; rfl)
            rw [he] at hcontra
            exact absurd hcontra.2 (by simp)
          · rw [← hrest]; exact ih true
    · simp only [runRep, hd, if_false, Bool.false_eq_true]
      cases hrest : runRep bad false l with
      | nil => simp
      | cons e rest =>
        rw [List.chain'_cons]
        constructor
        · intro hcontra
          exact absurd hcontra.1 (by simpa using hd)
        · rw [← hrest]; exact ih false

/-- If nothing in the list is `bad`, `runRep` is the identity. -/
theorem runRep_id_of_no_bad {bad : Char → Bool} :
    ∀ (l : List Char) (b : Bool), (∀ c ∈ l, bad c = false) →
      runRep bad b l = l := by
  intro l
  induction l with
  | nil => intro b _; rfl
  | cons d l ih =>
    intro b h
    have hd : bad d = false := h d (List.mem_cons_self d l)
    simp only [runRep, hd, if_false, Bool.false_eq_true]
    rw [ih false (fun c hc => h c (List.mem_cons_of_mem d hc))]

/-- If every `bad` character of the list is already the replacement space and
no two `bad` characters are adjacent, `runRep` (started outside a run) is the
identity. -/
theorem runRep_id_of_clean {bad : Char → Bool} :
    ∀ l : List Char, (∀ c ∈ l, bad c = true → c = ' ') →
      l.Chain' (fun a c => ¬(bad a = true ∧ bad c = true)) →
      runRep bad false l = l := by
  intro l
  induction l with
  | nil => intro _ _; rfl
  | cons d l ih =>
    intro hsp hch
    by_cases hd : bad d
    · have hdsp : d = ' ' := hsp d (List.mem_cons_self d l) hd
      simp only [runRep, hd, if_true]
      have htail : runRep bad true l = l := by
        cases l with
        | nil => rfl
        | cons e l2 =>
          have he : bad e = false := by
            by_contra hcon
            have hrel := (List.chain'_cons.mp hch).1
            exact hrel ⟨hd, by simpa using hcon⟩
          simp only [runRep, he, if_false, Bool.false_eq_true]
          have := ih (fun c hc hb => hsp c (List.mem_cons_of_mem d hc) hb)
            (List.chain'_cons.mp hch).2
          simpa [runRep, he] using this
      rw [htail, hdsp]
      simp
    · simp only [runRep, hd, if_false, Bool.false_eq_true]
      have hch2 : l.Chain' (fun a c => ¬(bad a = true ∧ bad c = true)) := hch.tail
      rw [ih (fun c hc hb => hsp c (List.mem_cons_of_mem d hc) hb) hch2]

/-- Characters of `dropWhile` output come from the input list. -/
theorem mem_of_mem_dropWhile {p : Char → Bool} {l : List Char} {c : Char}
    (h : c ∈ l.dropWhile p) : c ∈ l :=
  (List.dropWhile_suffix p).subset h

/-- Characters of `stripEnds` output come from the input list. -/
theorem mem_of_mem_stripEnds {p : Char → Bool} {l : List Char} {c : Char}
    (h : c ∈ stripEnds p l) : c ∈ l := by
  unfold stripEnds at h
  rw [List.mem_reverse] at h
  have h2 := mem_of_mem_dropWhile h
  rw [List.mem_reverse] at h2
  exact mem_of_mem_dropWhile h2

/-- The head of a `dropWhile p` output never satisfies `p`. -/
theorem dropWhile_head_not {p : Char → Bool} :
    ∀ (l : List Char) (c : Char), (l.dropWhile p).head? = some c →
      p c = false := by
  intro l
  induction l with
  | nil => intro c h; simp [List.dropWhile] at h
  | cons d l ih =>
    intro c h
    by_cases hd : p d
    · rw [List.dropWhile_cons_of_pos hd] at h
      exact ih c h
    · rw [List.dropWhile_cons_of_neg hd] at h
      simp only [List.head?_cons, Option.some.injEq] at h
      subst h
      simpa using hd

/-- If the first and last characters fail `p`, stripping is the identity. -/
theorem stripEnds_id_of {p : Char → Bool} {l : List Char}
    (h1 : ∀ c, l.head? = some c → p c = false)
    (h2 : ∀ c, l.getLast? = some c → p c = false) :
    stripEnds p l = l := by
  unfold stripEnds
  have hfront : l.dropWhile p = l := by
    cases l with
    | nil => rfl
    | cons d l2 =>
      rw [List.dropWhile_cons_of_neg]
      rw [h1 d rfl]
      simp
  rw [hfront]
  have hback : l.reverse.dropWhile p = l.reverse := by
    cases hrev : l.reverse with
    | nil => rfl
    | cons d l2 =>
      rw [List.dropWhile_cons_of_neg]
      have : l.getLast? = some d := by
        rw [← List.head?_reverse, hrev]; rfl
      rw [h2 d this]
      simp
  rw [hback, List.reverse_reverse]

/-- The head of the `stripEnds` output never satisfies `p`. -/
theorem stripEnds_head_not {p : Char → Bool} {l : List Char} {c : Char}
    (h : (stripEnds p l).head? = some c) : p c = false := by
  unfold stripEnds at h
  rw [List.head?_reverse] at h
  rcases List.getLast?_eq_some_iff.mp h with ⟨m, hm⟩
  have hsfx : (m ++ [c]) <:+ (l.dropWhile p).reverse := hm ▸ List.dropWhile_suffix p
  rcases hsfx with ⟨t, ht⟩
  have hrev : l.dropWhile p = c :: (m.reverse ++ t.reverse) := by
    have h4 := congrArg List.reverse ht
    simpa [List.reverse_append, List.append_assoc] using h4.symm
  exact dropWhile_head_not l c (by rw [hrev]; rfl)

/-- The last character of the `stripEnds` output never satisfies `p`. -/
theorem stripEnds_last_not {p : Char → Bool} {l : List Char} {c : Char}
    (h : (stripEnds p l).getLast? = some c) : p c = false := by
  unfold stripEnds at h
  rw [List.getLast?_reverse] at h
  exact dropWhile_head_not _ c h

/-- Chain properties survive `dropWhile`. -/
theorem chain_dropWhile {R : Char → Char → Prop} {p : Char → Bool} :
    ∀ l : List Char, l.Chain' R → (l.dropWhile p).Chain' R := by
  intro l
  induction l with
  | nil => intro _; simp [List.dropWhile]
  | cons d l ih =>
    intro h
    by_cases hd : p d
    · rw [List.dropWhile_cons_of_pos hd]
      exact ih h.tail
    · rw [List.dropWhile_cons_of_neg hd]
      exact h

/-- Chain properties survive `stripEnds`. -/
theorem chain_stripEnds {R : Char → Char → Prop} {p : Char → Bool}
    {l : List Char} (h : l.Chain' R) : (stripEnds p l).Chain' R := by
  unfold stripEnds
  rw [List.chain'_reverse]
  have h2 : ((l.dropWhile p).reverse).Chain' (flip R) :=
    (List.chain'_reverse).mpr ((chain_dropWhile l h).imp (fun a b hab => hab))
  exact chain_dropWhile _ h2

theorem head?_mem_self {l : List Char} {c : Char} (h : l.head? = some c) : c ∈ l := by
  cases l with
  | nil => simp at h
  | cons d l =>
    simp only [List.head?_cons, Option.some.injEq] at h
    rw [← h]
    exact List.mem_cons_self d l

theorem getLast?_mem_self {l : List Char} {c : Char} (h : l.getLast? = some c) :
    c ∈ l := by
  rcases List.getLast?_eq_some_iff.mp h with ⟨m, hm⟩
  subst hm
  simp

/-! ## Character-arithmetic facts used by the idempotence proofs -/

theorem hwAllowed_toNat {c : Char} (h : isHwAllowed c = true) :
    (97 ≤ c.toNat ∧ c.toNat ≤ 122) ∨ (48 ≤ c.toNat ∧ c.toNat ≤ 57) ∨
    c.toNat = 39 ∨ c.toNat = 45 ∨ c.toNat = 32 := by
  simp only [isHwAllowed, Bool.or_eq_true, Bool.and_eq_true, decide_eq_true_eq,
    beq_iff_eq] at h
  rcases h with ((((h1 | h2) | h3) | h4) | h5)
  · exact Or.inl h1
  · exact Or.inr (Or.inl h2)
  · exact Or.inr (Or.inr (Or.inl (by rw [h3]; decide)))
  · exact Or.inr (Or.inr (Or.inr (Or.inl (by rw [h4]; decide))))
  · exact Or.inr (Or.inr (Or.inr (Or.inr (by rw [h5]; decide))))

theorem pySpace_toNat {c : Char} (h : isPySpace c = true) :
    c.toNat = 32 ∨ c.toNat = 9 ∨ c.toNat = 10 ∨ c.toNat = 11 ∨ c.toNat = 12 ∨
    c.toNat = 13 ∨ (28 ≤ c.toNat ∧ c.toNat ≤ 31) ∨ c.toNat = 0x85 ∨
    c.toNat = 0xa0 ∨ c.toNat = 0x1680 ∨ (0x2000 ≤ c.toNat ∧ c.toNat ≤ 0x200a) ∨
    c.toNat = 0x2028 ∨ c.toNat = 0x2029 ∨ c.toNat = 0x202f ∨ c.toNat = 0x205f ∨
    c.toNat = 0x3000 := by
  simp only [isPySpace, Bool.or_eq_true, Bool.and_eq_true, decide_eq_true_eq,
    beq_iff_eq, Nat.beq_eq_true_eq] at h
  tauto

theorem hw_allowed_pyspace {c : Char} (h1 : isHwAllowed c = true)
    (h2 : isPySpace c = true) : c = ' ' := by
  apply char_toNat_inj
  have ha := hwAllowed_toNat h1
  have hb := pySpace_toNat h2
  show c.toNat = 32
  omega

theorem nfkcChar_eq_self {c : Char} (h1 : ¬(0xFF01 ≤ c.toNat ∧ c.toNat ≤ 0xFF5E))
    (h2 : c.toNat ≠ 0x3000) : nfkcChar c = c := by
  simp only [nfkcChar]
  rw [if_neg h1, if_neg h2]

theorem pyLower_eq_self {c : Char} (h1 : ¬(0x41 ≤ c.toNat ∧ c.toNat ≤ 0x5A))
    (h2 : ¬(0xFF21 ≤ c.toNat ∧ c.toNat ≤ 0xFF3A)) : pyLower c = c := by
  simp only [pyLower]
  rw [if_neg h1, if_neg h2]

theorem kanaRepl_eq_self {c : Char} (h1 : c.toNat ≠ 0x30F6)
    (h2 : c.toNat ≠ 0x30F5) : kanaRepl c = c := by
  simp only [kanaRepl]
  rw [if_neg, if_neg]
  · intro hc; exact h2 (by rw [hc]; rfl)
  · intro hc; exact h1 (by rw [hc]; rfl)

theorem quoteRepl_eq_self {c : Char} (h1 : c.toNat ≠ 0x2019)
    (h2 : c.toNat ≠ 96) : quoteRepl c = c := by
  simp only [quoteRepl]
  rw [if_neg]
  rintro (hc | hc)
  · exact h1 (by rw [hc]; rfl)
  · exact h2 (by rw [hc]; rfl)

theorem replNl_eq_self {c : Char} (h1 : c.toNat ≠ 0x3000) (h2 : c.toNat ≠ 13)
    (h3 : c.toNat ≠ 10) : replNl c = c := by
  simp only [replNl]
  rw [if_neg]
  rintro (hc | hc | hc)
  · exact h1 (by rw [hc]; rfl)
  · exact h2 (by rw [hc]; rfl)
  · exact h3 (by rw [hc]; rfl)

theorem ne_of_toNat_ne {c d : Char} (h : c.toNat ≠ d.toNat) : c ≠ d := by
  intro hc; exact h (by rw [hc])

/-- NFKC model is idempotent: its image consists of fixed points. -/
theorem nfkcChar_img (d : Char) : nfkcChar (nfkcChar d) = nfkcChar d := by
  by_cases h1 : 0xFF01 ≤ d.toNat ∧ d.toNat ≤ 0xFF5E
  · have hd : nfkcChar d = Char.ofNat (d.toNat - 0xFEE0) := by
      simp only [nfkcChar]; rw [if_pos h1]
    have ht : (nfkcChar d).toNat = d.toNat - 0xFEE0 := by
      rw [hd]; exact toNat_ofNat_valid (by omega)
    exact nfkcChar_eq_self (by omega) (by omega)
  · by_cases h2 : d.toNat = 0x3000
    · have hd : nfkcChar d = ' ' := by
        simp only [nfkcChar]; rw [if_neg h1, if_pos h2]
      rw [hd]
      exact nfkcChar_eq_self (by simp) (by simp)
    · rw [nfkcChar_eq_self h1 h2, nfkcChar_eq_self h1 h2]

/-- Lowering model is idempotent. -/
theorem pyLower_img (d : Char) : pyLower (pyLower d) = pyLower d := by
  by_cases h1 : 0x41 ≤ d.toNat ∧ d.toNat ≤ 0x5A
  · have hd : pyLower d = Char.ofNat (d.toNat + 0x20) := by
      simp only [pyLower]; rw [if_pos h1]
    have ht : (pyLower d).toNat = d.toNat + 0x20 := by
      rw [hd]; exact toNat_ofNat_valid (by omega)
    exact pyLower_eq_self (by omega) (by omega)
  · by_cases h2 : 0xFF21 ≤ d.toNat ∧ d.toNat ≤ 0xFF3A
    · have hd : pyLower d = Char.ofNat (d.toNat + 0x20) := by
        simp only [pyLower]; rw [if_neg h1, if_pos h2]
      have ht : (pyLower d).toNat = d.toNat + 0x20 := by
        rw [hd]; exact toNat_ofNat_valid (by omega)
      exact pyLower_eq_self (by omega) (by omega)
    · rw [pyLower_eq_self h1 h2, pyLower_eq_self h1 h2]

theorem kanaRepl_img (d : Char) : kanaRepl (kanaRepl d) = kanaRepl d := by
  by_cases h1 : d = Char.ofNat 0x30F6
  · subst h1; decide
  · by_cases h2 : d = Char.ofNat 0x30F5
    · subst h2; decide
    · have e1 : kanaRepl d = d := by
        simp only [kanaRepl]; rw [if_neg h1, if_neg h2]
      rw [e1, e1]

/-- NFKC fixed points stay fixed after lowering. -/
theorem nfkc_fix_pyLower {c : Char} (h : nfkcChar c = c) :
    nfkcChar (pyLower c) = pyLower c := by
  by_cases h1 : 0x41 ≤ c.toNat ∧ c.toNat ≤ 0x5A
  · have hd : pyLower c = Char.ofNat (c.toNat + 0x20) := by
      simp only [pyLower]; rw [if_pos h1]
    have ht : (pyLower c).toNat = c.toNat + 0x20 := by
      rw [hd]; exact toNat_ofNat_valid (by omega)
    exact nfkcChar_eq_self (by omega) (by omega)
  · by_cases h2 : 0xFF21 ≤ c.toNat ∧ c.toNat ≤ 0xFF3A
    · exfalso
      have hd : nfkcChar c = Char.ofNat (c.toNat - 0xFEE0) := by
        simp only [nfkcChar]; rw [if_pos (by omega)]
      have ht : (nfkcChar c).toNat = c.toNat - 0xFEE0 := by
        rw [hd]; exact toNat_ofNat_valid (by omega)
      have := congrArg Char.toNat h
      omega
    · rw [pyLower_eq_self h1 h2, h]

/-- NFKC fixed points stay fixed after kana unification. -/
theorem nfkc_fix_kana {c : Char} (h : nfkcChar c = c) :
    nfkcChar (kanaRepl c) = kanaRepl c := by
  by_cases h1 : c = Char.ofNat 0x30F6
  · subst h1; decide
  · by_cases h2 : c = Char.ofNat 0x30F5
    · subst h2; decide
    · have e1 : kanaRepl c = c := by
        simp only [kanaRepl]; rw [if_neg h1, if_neg h2]
      rw [e1, h]

/-- Lower fixed points stay fixed after kana unification. -/
theorem pyLower_fix_kana {c : Char} (h : pyLower c = c) :
    pyLower (kanaRepl c) = kanaRepl c := by
  by_cases h1 : c = Char.ofNat 0x30F6
  · subst h1; decide
  · by_cases h2 : c = Char.ofNat 0x30F5
    · subst h2; decide
    · have e1 : kanaRepl c = c := by
        simp only [kanaRepl]; rw [if_neg h1, if_neg h2]
      rw [e1, h]

theorem nfkc_ne_bom {c : Char} (h : c ≠ bomChar) : nfkcChar c ≠ bomChar := by
  by_cases h1 : 0xFF01 ≤ c.toNat ∧ c.toNat ≤ 0xFF5E
  · have hd : nfkcChar c = Char.ofNat (c.toNat - 0xFEE0) := by
      simp only [nfkcChar]; rw [if_pos h1]
    have ht : (nfkcChar c).toNat = c.toNat - 0xFEE0 := by
      rw [hd]; exact toNat_ofNat_valid (by omega)
    exact ne_of_toNat_ne (by rw [ht]; show _ ≠ (0xFEFF : Nat); omega)
  · by_cases h2 : c.toNat = 0x3000
    · have hd : nfkcChar c = ' ' := by
        simp only [nfkcChar]; rw [if_neg h1, if_pos h2]
      rw [hd]; decide
    · rw [nfkcChar_eq_self h1 h2]; exact h

theorem pyLower_ne_bom {c : Char} (h : c ≠ bomChar) : pyLower c ≠ bomChar := by
  by_cases h1 : 0x41 ≤ c.toNat ∧ c.toNat ≤ 0x5A
  · have hd : pyLower c = Char.ofNat (c.toNat + 0x20) := by
      simp only [pyLower]; rw [if_pos h1]
    have ht : (pyLower c).toNat = c.toNat + 0x20 := by
      rw [hd]; exact toNat_ofNat_valid (by omega)
    exact ne_of_toNat_ne (by rw [ht]; show _ ≠ (0xFEFF : Nat); omega)
  · by_cases h2 : 0xFF21 ≤ c.toNat ∧ c.toNat ≤ 0xFF3A
    · have hd : pyLower c = Char.ofNat (c.toNat + 0x20) := by
        simp only [pyLower]; rw [if_neg h1, if_pos h2]
      have ht : (pyLower c).toNat = c.toNat + 0x20 := by
        rw [hd]; exact toNat_ofNat_valid (by omega)
      exact ne_of_toNat_ne (by rw [ht]; show _ ≠ (0xFEFF : Nat); omega)
    · rw [pyLower_eq_self h1 h2]; exact h

theorem kana_ne_bom {c : Char} (h : c ≠ bomChar) : kanaRepl c ≠ bomChar := by
  by_cases h1 : c = Char.ofNat 0x30F6
  · subst h1; decide
  · by_cases h2 : c = Char.ofNat 0x30F5
    · subst h2; decide
    · have e1 : kanaRepl c = c := by
        simp only [kanaRepl]; rw [if_neg h1, if_neg h2]
      rw [e1]; exact h

/-- The output of `cleanL` never contains a byte-order mark. -/
theorem cleanL_no_bom {l : List Char} : ∀ c ∈ cleanL l, c ≠ bomChar := by
  intro c hc
  unfold cleanL at hc
  have h1 := mem_of_mem_stripEnds hc
  rcases runRep_mem _ _ _ h1 with h2 | h2
  · rw [h2]; decide
  · rcases List.mem_map.mp h2.1 with ⟨d, hd, hdc⟩
    have hdne : d ≠ bomChar := by
      have := List.of_mem_filter hd
      simpa using this
    rw [← hdc]
    simp only [replNl]
    split
    · decide
    · exact hdne

/-- Trivial no-two-adjacent-bad chain when no character is bad at all. -/
theorem chain_of_no_bad {bad : Char → Bool} :
    ∀ l : List Char, (∀ c ∈ l, bad c = false) →
      l.Chain' (fun a c => ¬(bad a = true ∧ bad c = true)) := by
  intro l
  induction l with
  | nil => intro _; simp
  | cons d l ih =>
    intro h
    cases l with
    | nil => simp
    | cons e l2 =>
      rw [List.chain'_cons]
      refine ⟨fun hcon => ?_, ih (fun c hc => h c (List.mem_cons_of_mem d hc))⟩
      have := h d (List.mem_cons_self d _)
      rw [this] at hcon
      exact absurd hcon.1 (by simp)

/-- Identity of `cleanL` on already-clean text. -/
theorem cleanL_id_of {y : List Char}
    (hbom : ∀ c ∈ y, c ≠ bomChar)
    (hrep : ∀ c ∈ y, replNl c = c)
    (hsp : ∀ c ∈ y, isPySpace c = true → c = ' ')
    (hch : y.Chain' (fun a c => ¬(isPySpace a = true ∧ isPySpace c = true)))
    (hhd : ∀ c, y.head? = some c → isPySpace c = false)
    (hls : ∀ c, y.getLast? = some c → isPySpace c = false) :
    cleanL y = y := by
  unfold cleanL
  rw [filter_id_of y (fun c hc => by simpa using hbom c hc),
    map_id_of y hrep, runRep_id_of_clean y hsp hch, stripEnds_id_of hhd hls]

/-- Characters of the normalized headword are all in the kept class. -/
theorem nhL_allowed {l : List Char} : ∀ c ∈ nhL l, isHwAllowed c = true := by
  intro c hc
  unfold nhL at hc
  have h1 := mem_of_mem_stripEnds hc
  rcases runRep_mem _ _ _ h1 with h2 | h2
  · rw [h2]; decide
  · rcases runRep_mem _ _ _ h2.1 with h3 | h3
    · rw [h3]; decide
    · have := h3.2
      simpa using this

/-- No two adjacent whitespace characters in a normalized headword. -/
theorem nhL_chain {l : List Char} :
    (nhL l).Chain' (fun a c => ¬(isPySpace a = true ∧ isPySpace c = true)) := by
  unfold nhL
  exact chain_stripEnds (runRep_chain _ false)

/-- Idempotence of the list-level `normalize_headword`. -/
theorem nhL_idem (l : List Char) : nhL (nhL l) = nhL l := by
  have hA := @nhL_allowed l
  have hC := @nhL_chain l
  have hH : ∀ c, (nhL l).head? = some c → hwStripSet c = false := by
    intro c hc
    exact stripEnds_head_not hc
  have hL : ∀ c, (nhL l).getLast? = some c → hwStripSet c = false := by
    intro c hc
    exact stripEnds_last_not hc
  have hsp : ∀ c ∈ nhL l, isPySpace c = true → c = ' ' := by
    intro c hc hcs
    exact hw_allowed_pyspace (hA c hc) hcs
  have hHs : ∀ c, (nhL l).head? = some c → isPySpace c = false := by
    intro c hc
    by_contra hcon
    have h1 : isPySpace c = true := by simpa using hcon
    have h2 : c = ' ' := hsp c (head?_mem_self hc) h1
    have := hH c hc
    rw [h2] at this
    exact absurd this (by decide)
  have hLs : ∀ c, (nhL l).getLast? = some c → isPySpace c = false := by
    intro c hc
    by_contra hcon
    have h1 : isPySpace c = true := by simpa using hcon
    have h2 : c = ' ' := hsp c (getLast?_mem_self hc) h1
    have := hL c hc
    rw [h2] at this
    exact absurd this (by decide)
  have hclean : cleanL (nhL l) = nhL l := by
    apply cleanL_id_of
    · intro c hc
      have := hwAllowed_toNat (hA c hc)
      exact ne_of_toNat_ne (by show _ ≠ (0xFEFF : Nat); omega)
    · intro c hc
      have := hwAllowed_toNat (hA c hc)
      exact replNl_eq_self (by omega) (by omega) (by omega)
    · exact hsp
    · exact hC
    · exact hHs
    · exact hLs
  show stripEnds hwStripSet
      (runRep isPySpace false
        (runRep (fun c => !(isHwAllowed c)) false
          ((((cleanL (nhL l)).map nfkcChar).map pyLower).map quoteRepl))) = nhL l
  rw [hclean]
  rw [map_id_of (nhL l) (fun c hc => by
    have := hwAllowed_toNat (hA c hc)
    exact nfkcChar_eq_self (by omega) (by omega))]
  rw [map_id_of (nhL l) (fun c hc => by
    have := hwAllowed_toNat (hA c hc)
    exact pyLower_eq_self (by omega) (by omega))]
  rw [map_id_of (nhL l) (fun c hc => by
    have := hwAllowed_toNat (hA c hc)
    exact quoteRepl_eq_self (by omega) (by omega))]
  rw [runRep_id_of_no_bad (nhL l) false (fun c hc => by simp [hA c hc])]
  rw [runRep_id_of_clean (nhL l) hsp hC]
  exact stripEnds_id_of hH hL

/-- Characters of a normalized book name avoid the stripped class. -/
theorem nbL_noStrip {l : List Char} : ∀ c ∈ nbL l, isBookStrip c = false := by
  intro c hc
  unfold nbL at hc
  have := List.of_mem_filter hc
  simpa using this

/-- Characters of a normalized book name are fixed by every character map of
the pipeline. -/
theorem nbL_fixed {l : List Char} : ∀ c ∈ nbL l,
    nfkcChar c = c ∧ pyLower c = c ∧ kanaRepl c = c ∧ c ≠ bomChar := by
  intro c hc
  unfold nbL at hc
  have h1 := List.mem_of_mem_filter hc
  rcases List.mem_map.mp h1 with ⟨c2, hc2, hkana⟩
  rcases List.mem_map.mp hc2 with ⟨c3, hc3, hlow⟩
  rcases List.mem_map.mp hc3 with ⟨d, hd, hnfkc⟩
  have hdbom : d ≠ bomChar := cleanL_no_bom d hd
  subst hnfkc
  subst hlow
  subst hkana
  refine ⟨?_, ?_, kanaRepl_img _, ?_⟩
  · exact nfkc_fix_kana (nfkc_fix_pyLower (nfkcChar_img d))
  · exact pyLower_fix_kana (pyLower_img _)
  · exact kana_ne_bom (pyLower_ne_bom (nfkc_ne_bom hdbom))

/-- Idempotence of the list-level `normalize_book_name`. -/
theorem nbL_idem (l : List Char) : nbL (nbL l) = nbL l := by
  have hS := @nbL_noStrip l
  have hF := @nbL_fixed l
  have hnosp : ∀ c ∈ nbL l, isPySpace c = false := by
    intro c hc
    have := hS c hc
    simp only [isBookStrip, Bool.or_eq_false_iff] at this
    exact this.1
  have hclean : cleanL (nbL l) = nbL l := by
    apply cleanL_id_of
    · intro c hc; exact (hF c hc).2.2.2
    · intro c hc
      have h1 : isPySpace c = false := hnosp c hc
      apply replNl_eq_self
      · intro hcon; rw [show isPySpace c = true by simp [isPySpace, hcon]] at h1; simp at h1
      · intro hcon; rw [show isPySpace c = true by simp [isPySpace, hcon]] at h1; simp at h1
      · intro hcon; rw [show isPySpace c = true by simp [isPySpace, hcon]] at h1; simp at h1
    · intro c hc hcon
      rw [hnosp c hc] at hcon
      exact absurd hcon (by simp)
    · exact chain_of_no_bad _ hnosp
    · intro c hc; exact hnosp c (head?_mem_self hc)
    · intro c hc; exact hnosp c (getLast?_mem_self hc)
  show ((((cleanL (nbL l)).map nfkcChar).map pyLower).map kanaRepl).filter
      (fun c => !(isBookStrip c)) = nbL l
  rw [hclean]
  rw [map_id_of (nbL l) (fun c hc => (hF c hc).1)]
  rw [map_id_of (nbL l) (fun c hc => (hF c hc).2.1)]
  rw [map_id_of (nbL l) (fun c hc => (hF c hc).2.2.1)]
  exact filter_id_of (nbL l) (fun c hc => by simp [hS c hc])

/-- C8.  Both normalizers are idempotent, and they identify Unicode
width-variant spellings: the full-width and half-width Latin spellings of the
same word normalize identically. -/
theorem C8_normalizers_idempotent :
    (∀ s : String, normalize_headword (normalize_headword s) = normalize_headword s) ∧
    (∀ s : String, normalize_book_name (normalize_book_name s) = normalize_book_name s) ∧
    normalize_headword "ｈａｐｐｙ" = normalize_headword "happy" ∧
    normalize_book_name "ＴＯＥＦＬ" = normalize_book_name "TOEFL" := by
  refine ⟨fun s => ?_, fun s => ?_, by decide, by decide⟩
  · exact congrArg String.mk (nhL_idem s.data)
  · exact congrArg String.mk (nbL_idem s.data)

/-! ## POS tables of the source module -/

/-- Canonical POS label order (`POS_ORDER`). -/
def POS_ORDER : List String :=
  ["verb", "noun", "adjective", "adverb", "phrase", "function", "other"]

/-- Rank of a label in `POS_ORDER_INDEX` (1-based), with the `.get(_, 999)`
default used throughout the source. -/
def posOrderIdx (p : String) : Nat :=
  if p = "verb" then 1 else if p = "noun" then 2 else if p = "adjective" then 3
  else if p = "adverb" then 4 else if p = "phrase" then 5
  else if p = "function" then 6 else if p = "other" then 7 else 999

/-- Japanese display label (`POS_LABEL_JA`), with the `.get(_, "その他")`
default. -/
def posLabelJa (p : String) : String :=
  if p = "verb" then "動詞" else if p = "noun" then "名詞"
  else if p = "adjective" then "形容詞" else if p = "adverb" then "副詞"
  else if p = "phrase" then "熟語" else if p = "function" then "機能語"
  else if p = "other" then "その他" else "その他"

/-- Closed-class function-word lexicon (`FUNCTION_WORDS`). -/
def FUNCTION_WORDS : List String :=
  ["a", "an", "the", "and", "or", "but", "if", "because", "although", "however",
   "to", "of", "in", "on", "at", "for", "from", "with", "by", "about", "under",
   "over", "between", "through", "during", "without", "before", "after", "into",
   "upon", "as", "that", "this", "these", "those", "which", "who", "whom",
   "whose", "what", "when", "where", "why", "how",
   "i", "me", "my", "mine", "myself", "you", "your", "yours", "yourself",
   "yourselves", "he", "him", "his", "himself", "she", "her", "hers", "herself",
   "it", "its", "itself", "we", "us", "our", "ours", "ourselves", "they",
   "them", "their", "theirs", "themselves", "any", "some", "many", "much",
   "all", "another", "either", "neither", "both", "each", "few", "more",
   "most", "less"]

/-- Adverb headword lexicon (`ADVERB_HEADWORDS`). -/
def ADVERB_HEADWORDS : List String :=
  ["almost", "already", "also", "always", "away", "ever", "hardly", "here",
   "however", "just", "maybe", "never", "often", "once", "perhaps", "quite",
   "rather", "really", "simply", "sometimes", "soon", "still", "there",
   "therefore", "thus", "together", "tomorrow", "too", "twice", "usually",
   "very", "well", "yesterday", "yet"]

/-- Adjective headword lexicon (`ADJECTIVE_HEADWORDS`). -/
def ADJECTIVE_HEADWORDS : List String :=
  ["afraid", "alive", "asleep", "awake", "glad", "likely", "unable",
   "available", "responsible"]

/-- Noun-forming suffixes (`NOUN_SUFFIXES`). -/
def NOUN_SUFFIXES : List String :=
  ["tion", "sion", "ment", "ness", "ity", "ence", "ance", "ship", "hood",
   "ism", "ist", "er", "or", "age"]

/-- Adjective-forming suffixes (`ADJECTIVE_SUFFIXES`). -/
def ADJECTIVE_SUFFIXES : List String :=
  ["ous", "ful", "ive", "al", "able", "ible", "ic", "ical", "less", "ish"]

/-- Verb-forming suffixes (`VERB_SUFFIXES`). -/
def VERB_SUFFIXES : List String := ["ate", "ify", "ise", "ize", "en"]

/-- Exceptions to the `-ly` adverb rule (`ADVERB_EXCEPTIONS`). -/
def ADVERB_EXCEPTIONS : List String :=
  ["friendly", "likely", "lively", "lonely", "lovely", "silly", "ugly",
   "early", "costly"]

/-- Exceptions to the verb-suffix rule (`VERB_SUFFIX_EXCEPTIONS`). -/
def VERB_SUFFIX_EXCEPTIONS : List String :=
  ["date", "state", "rate", "late", "plate", "mate", "private", "climate"]

/-! ## Substring and pattern primitives used by the classifier's regexes -/

/-- Tests whether `pre` is an initial segment of `l`. -/
def hasInitSeg : List Char → List Char → Bool
  | [], _ => true
  | _ :: _, [] => false
  | p :: ps, c :: cs => p == c && hasInitSeg ps cs

/-- Consumes the initial segment `pre` of `l`, returning the remainder. -/
def dropInitSeg : List Char → List Char → Option (List Char)
  | [], l => some l
  | _ :: _, [] => none
  | p :: ps, c :: cs => if p == c then dropInitSeg ps cs else none

/-- Tests whether `suf` is a final segment of `l`. -/
def endsWithL (l suf : List Char) : Bool := hasInitSeg suf.reverse l.reverse

/-- Substring containment (Python `in`, `re.search` of a literal). -/
def listContainsSub (sub : List Char) : List Char → Bool
  | [] => sub.isEmpty
  | c :: cs => hasInitSeg sub (c :: cs) || listContainsSub sub cs

/-- Character class `[ぁ-んァ-ヶ一-龠]` of the classifier's regexes. -/
def isJpCore (c : Char) : Bool :=
  let n := c.toNat
  (decide (0x3041 ≤ n) && decide (n ≤ 0x3093)) ||
  (decide (0x30A1 ≤ n) && decide (n ≤ 0x30F6)) ||
  (decide (0x4E00 ≤ n) && decide (n ≤ 0x9FA0))

/-- Match of `re.search(r"[ぁ-んァ-ヶ一-龠]{1,14}<t>$", gloss)`: the gloss ends
in the target character, immediately preceded by at least one character of the
Japanese class (repetition upper bounds are irrelevant to `re.search`, which
may start anywhere). -/
def glossEndsJpThen (t : Char) (g : List Char) : Bool :=
  match g.reverse with
  | c1 :: c2 :: _ => c1 == t && isJpCore c2
  | _ => false

/-- Match of the dictionary-form verb terminal
`[ぁ-んァ-ヶ一-龠]{1,16}(る|う|く|す|つ|ぬ|む|ぶ|ぐ)$`. -/
def glossEndsVerb (g : List Char) : Bool :=
  match g.reverse with
  | c1 :: c2 :: _ =>
    (c1 == 'る' || c1 == 'う' || c1 == 'く' || c1 == 'す' || c1 == 'つ' ||
     c1 == 'ぬ' || c1 == 'む' || c1 == 'ぶ' || c1 == 'ぐ') && isJpCore c2
  | _ => false

/-- Match of `re.search(r"(もの|こと|ため)$", gloss)` and friends: the gloss
ends with one of several literal strings. -/
def endsWithAny (g : List Char) (sufs : List String) : Bool :=
  sufs.any (fun s => endsWithL g s.data)

/-- Match of the i-adjective terminal `[ぁ-んァ-ヶ一-龠]{2,14}い$`: the gloss
ends with `い` preceded by at least two Japanese-class characters. -/
def glossEndsI (g : List Char) : Bool :=
  match g.reverse with
  | c1 :: c2 :: c3 :: _ => c1 == 'い' && isJpCore c2 && isJpCore c3
  | _ => false

/-- Character class written  `[、,・;/()（）\\s]`  in the source's raw-string
regexes.  Note the faithfulness point: inside a raw string `\\s` is an escaped
backslash followed by a literal `s`, so the class contains the backslash and
the letter `s`, not whitespace. -/
def isLitS (c : Char) : Bool :=
  c == '、' || c == ',' || c == '・' || c == ';' || c == '/' ||
  c == '(' || c == ')' || c == '（' || c == '）' || c == Char.ofNat 92 || c == 's'

/-- Right boundary `(?:$|[S])`: end of string or an `S`-class character. -/
def litSBoundary (l : List Char) : Bool :=
  match l with
  | [] => true
  | c :: _ => isLitS c

/-- Consumes exactly `k` characters outside the `S` class. -/
def notSTake : Nat → List Char → Option (List Char)
  | 0, l => some l
  | _ + 1, [] => none
  | k + 1, c :: l => if isLitS c then none else notSTake k l

/-- Consumes exactly `k` characters of the Japanese class. -/
def jpTake : Nat → List Char → Option (List Char)
  | 0, l => some l
  | _ + 1, [] => none
  | k + 1, c :: l => if isJpCore c then jpTake k l else none

/-- Tail match `[^S]{0,8}(する|になる|させる)(?:$|[S])` starting at the current
position. -/
def suruTail (l : List Char) : Bool :=
  (List.range 9).any (fun k =>
    match notSTake k l with
    | none => false
    | some rest =>
      ["する", "になる", "させる"].any (fun w =>
        match dropInitSeg w.data rest with
        | none => false
        | some rest2 => litSBoundary rest2))

/-- Tail match `[ぁ-んァ-ヶ一-龠]{1,10}<t>(?:$|[S])` starting at the current
position. -/
def jpBoundedTail (t : Char) (l : List Char) : Bool :=
  (List.range 10).any (fun k0 =>
    match jpTake (k0 + 1) l with
    | none => false
    | some rest =>
      match rest with
      | c :: rest2 => c == t && litSBoundary rest2
      | [] => false)

/-- Tries `tail` at every position directly following an `S`-class character. -/
def scanAfterS (tail : List Char → Bool) : List Char → Bool
  | [] => false
  | c :: cs => (isLitS c && tail cs) || scanAfterS tail cs

/-- Full search of `(?:^|[S])<tail>`: the tail must match at the string start
or right after an `S`-class character. -/
def searchBounded (tail : List Char → Bool) (l : List Char) : Bool :=
  tail l || scanAfterS tail l

/-! ## Gloss analyzer -/

/-- Opening brackets of the tag-removal regexes. -/
def isOpenB (c : Char) : Bool := c == '[' || c == '(' || c == '（' || c == '【'

/-- Closing brackets of the tag-removal regexes. -/
def isCloseB (c : Char) : Bool := c == ']' || c == ')' || c == '）' || c == '】'

/-- Label alternatives of the first tag-removal regex of
`extract_first_gloss`. -/
def gTagWords : List String :=
  ["名", "動", "形", "副", "他", "自", "前", "接", "代", "助", "可算", "不可算"]

/-- After an opening bracket: tries to consume one label alternative followed
by a closing bracket. -/
def tagChop (l : List Char) : Option (List Char) :=
  gTagWords.findSome? (fun w =>
    match dropInitSeg w.data l with
    | none => none
    | some rest =>
      match rest with
      | c :: rest2 => if isCloseB c then some rest2 else none
      | [] => none)

/-- Leftmost non-overlapping replacement of bracketed POS labels by a space
(first `re.sub` of `extract_first_gloss`), fuelled by the input length so the
recursion is structural. -/
def sub1F : Nat → List Char → List Char
  | 0, l => l
  | _ + 1, [] => []
  | n + 1, c :: l =>
    if isOpenB c then
      match tagChop l with
      | some rest => ' ' :: sub1F n rest
      | none => c :: sub1F n l
    else c :: sub1F n l

/-- First tag-removal pass. -/
def sub1 (l : List Char) : List Char := sub1F l.length l

/-- Digits and the circled digits `①-⑩`. -/
def isDigCirc (c : Char) : Bool :=
  (decide (48 ≤ c.toNat) && decide (c.toNat ≤ 57)) ||
  (decide (0x2460 ≤ c.toNat) && decide (c.toNat ≤ 0x2469))

/-- After an opening bracket: consumes `[0-9①-⑩]+\s*` followed by a closing
bracket. -/
def numChop (l : List Char) : Option (List Char) :=
  let digits := l.takeWhile isDigCirc
  if digits.isEmpty then none
  else
    match (l.dropWhile isDigCirc).dropWhile isPySpace with
    | c :: rest3 => if isCloseB c then some rest3 else none
    | [] => none

/-- Leftmost non-overlapping replacement of bracketed counters by a space
(second `re.sub` of `extract_first_gloss`). -/
def sub2F : Nat → List Char → List Char
  | 0, l => l
  | _ + 1, [] => []
  | n + 1, c :: l =>
    if isOpenB c then
      match numChop l with
      | some rest => ' ' :: sub2F n rest
      | none => c :: sub2F n l
    else c :: sub2F n l

/-- Second tag-removal pass. -/
def sub2 (l : List Char) : List Char := sub2F l.length l

/-- Separator unification: `；`, `;` and `/` all become `、`. -/
def sepRepl (c : Char) : Char :=
  if c = '；' ∨ c = ';' ∨ c = '/' then '、' else c

/-- Split on the separators `、` and `,` (Python `re.split(r"[、,]", ·)`),
keeping empty segments as the regex split does. -/
def splitSepAux : List Char → List Char → List (List Char)
  | [], acc => [acc.reverse]
  | c :: cs, acc =>
    if c = '、' ∨ c = ',' then acc.reverse :: splitSepAux cs []
    else splitSepAux cs (c :: acc)

/-- Separator split. -/
def splitSep (l : List Char) : List (List Char) := splitSepAux l []

/-- Leading-strip class `[0-9①-⑩\-\.\s]` of the token cleanup. -/
def isLeadStrip (c : Char) : Bool :=
  isDigCirc c || c == '-' || c == '.' || isPySpace c

/-- Embedding of `extract_first_gloss` from the source. -/
def extract_first_gloss (s : String) : String :=
  let cleaned := cleanL s.data
  if cleaned.isEmpty then ⟨[]⟩
  else
    let parts :=
      ((splitSep ((sub2 (sub1 cleaned)).map sepRepl)).map cleanL).filter
        (fun p => !(p.isEmpty))
    match parts.findSome? (fun part =>
      let token := cleanL (part.dropWhile isLeadStrip)
      if token.isEmpty then none else some token) with
    | some t => ⟨t⟩
    | none =>
      match parts with
      | [] => ⟨[]⟩
      | p :: _ => ⟨cleanL p⟩

/-- Tag match at the current position: a 3-character `bracket label bracket`
group of `POS_TAG_PATTERNS` (with matching bracket family).  The label kanji
determines the POS uniquely, so scanning positions left to right and merging
is equivalent to the source's per-pattern `finditer` + sort by start. -/
def tagHere (l : List Char) : Option String :=
  match l with
  | o :: k :: c :: _ =>
    if (o == '【' && c == '】') || (o == '[' && c == ']') || (o == '(' && c == ')') then
      if k == '名' then some "noun"
      else if k == '動' || k == '他' || k == '自' then some "verb"
      else if k == '形' then some "adjective"
      else if k == '副' then some "adverb"
      else none
    else none
  | _ => none

/-- Position-ordered scan for explicit POS tags. -/
def scanTags : List Char → List String
  | [] => []
  | c :: cs =>
    match tagHere (c :: cs) with
    | some p => p :: scanTags cs
    | none => scanTags cs

/-- First-seen-order de-duplication with a seen accumulator. -/
def dedupSeen : List String → List String → List String
  | [], _ => []
  | p :: ps, seen =>
    if seen.contains p then dedupSeen ps seen else p :: dedupSeen ps (p :: seen)

/-- Embedding of `parse_explicit_pos_tags` from the source. -/
def parse_explicit_pos_tags (s : String) : List String :=
  dedupSeen (scanTags (cleanL s.data)) []

/-- Embedding of `is_phrase_headword` from the source. -/
def is_phrase_headword (s : String) : Bool :=
  let normalized := (cleanL s.data).map pyLower
  !(normalized.isEmpty) &&
    (normalized.contains ' ' || normalized.contains '~' || normalized.contains '/')

/-! ## POS classifier (`infer_pos`) -/

/-- Local `w` of `infer_pos`: cleaned, lowered headword. -/
def ipW (headword : String) : List Char := (cleanL headword.data).map pyLower

/-- Local `m_norm` of `infer_pos`: cleaned meaning with `〜` unified to `～`. -/
def ipMNorm (meaning : String) : List Char :=
  (cleanL meaning.data).map (fun c => if c = '〜' then '～' else c)

/-- Local `gloss` of `infer_pos`. -/
def ipGloss (meaning : String) : List Char :=
  (extract_first_gloss ⟨ipMNorm meaning⟩).data

/-- Local `explicit_tags` of `infer_pos`. -/
def ipTags (meaning : String) : List String :=
  parse_explicit_pos_tags ⟨ipMNorm meaning⟩

/-- The seven nominal-semantic marker alternatives of the
`meaning_noun_marker` rule. -/
def nounMarkerSubs : List String := ["人", "物", "こと", "状態", "行為", "性", "力"]

/-- Embedding of `infer_pos` from the source: the full prioritized rule
cascade, returning `(pos, confidence, evidence)`. -/
def infer_pos (headword meaning : String) : String × Nat × String :=
  if (ipW headword).isEmpty then ("other", 0, "empty_word")
  else if is_phrase_headword ⟨ipW headword⟩ then ("phrase", 95, "phrase_pattern")
  else if FUNCTION_WORDS.contains ⟨ipW headword⟩ then
    ("function", 95, "function_word_list")
  else if (ipTags meaning).length == 1 then
    ((ipTags meaning).headD "", 94, "explicit_tag:" ++ (ipTags meaning).headD "")
  else if decide (2 ≤ (ipTags meaning).length) &&
      !((ipTags meaning).headD "" == "noun") then
    ((ipTags meaning).headD "", 90,
     "explicit_primary_tag:" ++ (ipTags meaning).headD "")
  else if ADVERB_HEADWORDS.contains ⟨ipW headword⟩ then
    ("adverb", 92, "headword_adverb_list")
  else if ADJECTIVE_HEADWORDS.contains ⟨ipW headword⟩ then
    ("adjective", 90, "headword_adjective_list")
  else if !(ipGloss meaning).isEmpty && glossEndsJpThen 'な' (ipGloss meaning) then
    ("adjective", 86, "meaning_dict_form_adjective")
  else if !(ipGloss meaning).isEmpty && glossEndsJpThen 'に' (ipGloss meaning) then
    ("adverb", 83, "meaning_dict_form_adverb")
  else if !(ipGloss meaning).isEmpty && glossEndsVerb (ipGloss meaning) &&
      !(endsWithAny (ipGloss meaning) ["もの", "こと", "ため"]) then
    ("verb", 84, "meaning_dict_form_verb")
  else if !(ipGloss meaning).isEmpty && glossEndsI (ipGloss meaning) &&
      !(endsWithAny (ipGloss meaning)
        ["祝い", "思い", "違い", "戦い", "争い", "願い", "祈り"]) then
    ("adjective", 78, "meaning_dict_form_adjective")
  else if listContainsSub "すること".data (ipMNorm meaning) then
    ("noun", 82, "meaning_gerund_noun")
  else if searchBounded suruTail (ipMNorm meaning) then
    ("verb", 88, "meaning_contains_する")
  else if listContainsSub "的な".data (ipMNorm meaning) ||
      searchBounded (jpBoundedTail 'な') (ipMNorm meaning) then
    ("adjective", 84, "meaning_adjective_marker")
  else if listContainsSub "的に".data (ipMNorm meaning) ||
      searchBounded (jpBoundedTail 'に') (ipMNorm meaning) then
    ("adverb", 82, "meaning_adverb_marker")
  else if endsWithL (ipW headword) "ly".data &&
      !(ADVERB_EXCEPTIONS.contains ⟨ipW headword⟩) then
    ("adverb", 80, "suffix_ly")
  else if NOUN_SUFFIXES.any (fun suf => endsWithL (ipW headword) suf.data) then
    ("noun", 76, "noun_suffix")
  else if ADJECTIVE_SUFFIXES.any (fun suf => endsWithL (ipW headword) suf.data) then
    ("adjective", 74, "adjective_suffix")
  else if decide (6 ≤ (ipW headword).length) &&
      !(VERB_SUFFIX_EXCEPTIONS.contains ⟨ipW headword⟩) &&
      VERB_SUFFIXES.any (fun suf => endsWithL (ipW headword) suf.data) then
    ("verb", 70, "verb_suffix")
  else if nounMarkerSubs.any (fun mk => listContainsSub mk.data (ipMNorm meaning)) then
    ("noun", 65, "meaning_noun_marker")
  else ("noun", 45, "fallback_noun")

/-! ## Classifier totality (C1) and the `"happy"` example (C2) -/

theorem tagHere_mem {l : List Char} {p : String} (h : tagHere l = some p) :
    p = "noun" ∨ p = "verb" ∨ p = "adjective" ∨ p = "adverb" := by
  unfold tagHere at h
  repeat' split at h
  all_goals simp_all

theorem scanTags_mem : ∀ (l : List Char) (p : String), p ∈ scanTags l →
    p = "noun" ∨ p = "verb" ∨ p = "adjective" ∨ p = "adverb" := by
  intro l
  induction l with
  | nil => intro p hp; simp [scanTags] at hp
  | cons c cs ih =>
    intro p hp
    cases htag : tagHere (c :: cs) with
    | some q =>
      rw [scanTags, htag] at hp
      rcases List.mem_cons.mp hp with h1 | h1
      · subst h1; exact tagHere_mem htag
      · exact ih p h1
    | none =>
      rw [scanTags, htag] at hp
      exact ih p hp

theorem dedupSeen_sub : ∀ (l seen : List String) (p : String),
    p ∈ dedupSeen l seen → p ∈ l := by
  intro l
  induction l with
  | nil => intro seen p hp; simp [dedupSeen] at hp
  | cons q l ih =>
    intro seen p hp
    unfold dedupSeen at hp
    split at hp
    · exact List.mem_cons_of_mem q (ih _ p hp)
    · rcases List.mem_cons.mp hp with h1 | h1
      · subst h1; exact List.mem_cons_self p l
      · exact List.mem_cons_of_mem q (ih _ p h1)

theorem ipTags_mem (m : String) (p : String) (h : p ∈ ipTags m) :
    p = "noun" ∨ p = "verb" ∨ p = "adjective" ∨ p = "adverb" :=
  scanTags_mem _ p (dedupSeen_sub _ [] p h)

theorem headD_mem {tags : List String} (h : tags ≠ []) :
    tags.headD "" ∈ tags := by
  cases tags with
  | nil => exact absurd rfl h
  | cons t ts => exact List.mem_cons_self t ts

/-- Well-rangedness predicate of a classification triple: canonical label,
confidence at most 100, and the `fallback_noun` evidence only on the default
result. -/
def posOK (r : String × Nat × String) : Prop :=
  r.1 ∈ POS_ORDER ∧ r.2.1 ≤ 100 ∧
    (r.2.2 = "fallback_noun" → r = ("noun", 45, "fallback_noun"))

instance (r : String × Nat × String) : Decidable (posOK r) := by
  unfold posOK
  infer_instance

theorem ite_split {α : Type} {P : α → Prop} {c : Prop} [Decidable c] {a b : α}
    (ha : c → P a) (hb : ¬c → P b) : P (if c then a else b) := by
  by_cases hc : c
  · rw [if_pos hc]; exact ha hc
  · rw [if_neg hc]; exact hb hc

/-- C1.  `infer_pos` is total and well-ranged: for every pair of input
strings, including empty strings, it returns exactly one triple whose POS
label is one of the 7 canonical categories, whose confidence is an integer in
`[0, 100]` (it is a `Nat` here, so the lower bound is inherent), and whose
evidence is `fallback_noun` exactly in the default branch, which returns
`("noun", 45, "fallback_noun")`. -/
theorem C1_infer_pos_total (h g : String) :
    (infer_pos h g).1 ∈ POS_ORDER ∧ (infer_pos h g).2.1 ≤ 100 ∧
    ((infer_pos h g).2.2 = "fallback_noun" →
      infer_pos h g = ("noun", 45, "fallback_noun")) := by
  show posOK (infer_pos h g)
  delta infer_pos
  refine ite_split (fun _ => by decide) (fun _ => ?_)
  refine ite_split (fun _ => by decide) (fun _ => ?_)
  refine ite_split (fun _ => by decide) (fun _ => ?_)
  refine ite_split (fun hlen => ?_) (fun _ => ?_)
  · have hne : ipTags g ≠ [] := by
      intro hnil
      rw [hnil] at hlen
      simp at hlen
    rcases ipTags_mem g _ (headD_mem hne) with hh | hh | hh | hh <;> rw [hh] <;> decide
  refine ite_split (fun hlen => ?_) (fun _ => ?_)
  · have hne : ipTags g ≠ [] := by
      intro hnil
      rw [hnil] at hlen
      simp at hlen
    rcases ipTags_mem g _ (headD_mem hne) with hh | hh | hh | hh <;> rw [hh] <;> decide
  refine ite_split (fun _ => by decide) (fun _ => ?_)
  refine ite_split (fun _ => by decide) (fun _ => ?_)
  refine ite_split (fun _ => by decide) (fun _ => ?_)
  refine ite_split (fun _ => by decide) (fun _ => ?_)
  refine ite_split (fun _ => by decide) (fun _ => ?_)
  refine ite_split (fun _ => by decide) (fun _ => ?_)
  refine ite_split (fun _ => by decide) (fun _ => ?_)
  refine ite_split (fun _ => by decide) (fun _ => ?_)
  refine ite_split (fun _ => by decide) (fun _ => ?_)
  refine ite_split (fun _ => by decide) (fun _ => ?_)
  refine ite_split (fun _ => by decide) (fun _ => ?_)
  refine ite_split (fun _ => by decide) (fun _ => ?_)
  refine ite_split (fun _ => by decide) (fun _ => ?_)
  refine ite_split (fun _ => by decide) (fun _ => ?_)
  refine ite_split (fun _ => by decide) (fun _ => ?_)
  decide

/-- C2 counterexample.  The claim says `infer_pos "happy"` with the empty
gloss returns `adjective` at confidence 74 through the adjective-suffix rule;
in fact no suffix of `ADJECTIVE_SUFFIXES` matches `"happy"` (the table has no
`-y`/`-py` entry), so the code returns the noun fallback instead. -/
theorem C2_happy_not_adjective :
    (infer_pos "happy" "").1 ≠ "adjective" ∧ (infer_pos "happy" "").2.1 ≠ 74 := by
  decide

/-- C2 amended.  `infer_pos "happy"` with the empty gloss returns
`("noun", 45, "fallback_noun")`: the adjective-suffix rule does not fire
because `"happy"` ends in none of the suffixes of `ADJECTIVE_SUFFIXES`. -/
theorem C2_happy_fallback :
    infer_pos "happy" "" = ("noun", 45, "fallback_noun") ∧
    (ADJECTIVE_SUFFIXES.any (fun suf => endsWithL (ipW "happy") suf.data)) = false := by
  decide

/-! ## Candidate Aggregator (`build_original_wordbank`, grouping part) -/

/-- One classified base row of `build_original_wordbank` (the fields that the
per-headword POS aggregation reads). -/
structure SrcRow where
  headword_norm : String
  pos : String
  pos_confidence : Nat
  stage : Nat
  pos_evidence : String
deriving DecidableEq, Repr

/-- Stage weight table (`STAGE_POS_WEIGHT`, default 1.0). -/
def STAGE_POS_WEIGHT (s : Nat) : ℚ :=
  if s = 1 then 5/4 else if s = 2 then 23/20 else if s = 3 then 1
  else if s = 4 then 9/10 else 1

/-- Evidence weight table (`POS_EVIDENCE_WEIGHT`, default 1.0), with the float
constants of the source written as exact rationals. -/
def POS_EVIDENCE_WEIGHT (e : String) : ℚ :=
  if e = "phrase_pattern" then 27/20
  else if e = "function_word_list" then 13/10
  else if e = "explicit_tag:noun" then 32/25
  else if e = "explicit_tag:verb" then 32/25
  else if e = "explicit_tag:adjective" then 32/25
  else if e = "explicit_tag:adverb" then 32/25
  else if e = "explicit_primary_tag:verb" then 61/50
  else if e = "explicit_primary_tag:adjective" then 61/50
  else if e = "explicit_primary_tag:adverb" then 61/50
  else if e = "headword_adverb_list" then 13/10
  else if e = "headword_adjective_list" then 5/4
  else if e = "meaning_gerund_noun" then 6/5
  else if e = "meaning_dict_form_verb" then 59/50
  else if e = "meaning_dict_form_adjective" then 29/25
  else if e = "meaning_dict_form_adverb" then 28/25
  else if e = "meaning_contains_する" then 6/5
  else if e = "meaning_adjective_marker" then 23/20
  else if e = "meaning_adverb_marker" then 23/20
  else if e = "suffix_ly" then 11/10
  else if e = "noun_suffix" then 27/25
  else if e = "adjective_suffix" then 27/25
  else if e = "verb_suffix" then 51/50
  else if e = "meaning_noun_marker" then 1
  else if e = "fallback_noun" then 17/20
  else 1

/-- Weighted score of one row: confidence × stage weight × evidence weight
(the evidence is cleaned before lookup, as in the source). -/
def rowScore (r : SrcRow) : ℚ :=
  (r.pos_confidence : ℚ) * STAGE_POS_WEIGHT r.stage *
    POS_EVIDENCE_WEIGHT (clean_text r.pos_evidence)

/-- Vote count of a POS label within a group (`Counter`). -/
def posVotes (rows : List SrcRow) (p : String) : Nat :=
  rows.countP (fun r => r.pos == p)

/-- Aggregated score of a POS label: sum of row scores plus the fixed
8-point-per-vote bonus (`sum(row_scores) + len(pos_group) * 8.0`).  Labels
with no votes score 0, matching the `.get(_, 0.0)` lookups of the source. -/
def posScore (rows : List SrcRow) (p : String) : ℚ :=
  ((rows.filter (fun r => r.pos == p)).map rowScore).sum + (posVotes rows p) * 8

/-- Distinct POS labels present in a group (`pos_counter.items()`). -/
def posLabels (rows : List SrcRow) : List String := (rows.map (·.pos)).dedup

/-- Computable code-point-wise lexicographic comparison of character lists
(Python string comparison). -/
def charListLe : List Char → List Char → Bool
  | [], _ => true
  | _ :: _, [] => false
  | c :: cs, d :: ds =>
    if c.toNat < d.toNat then true
    else if d.toNat < c.toNat then false
    else charListLe cs ds

/-- Python string `≤`. -/
def strLe (a b : String) : Bool := charListLe a.data b.data

theorem charListLe_total : ∀ a b : List Char,
    charListLe a b = true ∨ charListLe b a = true := by
  intro a
  induction a with
  | nil => intro b; exact Or.inl rfl
  | cons x xs ih =>
    intro b
    cases b with
    | nil => exact Or.inr rfl
    | cons y ys =>
      simp only [charListLe]
      by_cases h1 : x.toNat < y.toNat
      · exact Or.inl (by rw [if_pos h1])
      · by_cases h2 : y.toNat < x.toNat
        · exact Or.inr (by rw [if_pos h2])
        · rcases ih ys with h | h
          · exact Or.inl (by rw [if_neg h1, if_neg h2]; exact h)
          · exact Or.inr (by rw [if_neg h2, if_neg h1]; exact h)

theorem charListLe_trans : ∀ a b c : List Char, charListLe a b = true →
    charListLe b c = true → charListLe a c = true := by
  intro a
  induction a with
  | nil => intro b c _ _; rfl
  | cons x xs ih =>
    intro b c hab hbc
    cases b with
    | nil => exact absurd hab (by simp [charListLe])
    | cons y ys =>
      cases c with
      | nil => exact absurd hbc (by simp [charListLe])
      | cons z zs =>
        simp only [charListLe] at hab hbc ⊢
        by_cases h1 : x.toNat < y.toNat
        · by_cases h2 : y.toNat < z.toNat
          · rw [if_pos (by omega)]
          · rw [if_neg h2] at hbc
            by_cases h3 : z.toNat < y.toNat
            · rw [if_pos h3] at hbc; exact absurd hbc (by simp)
            · rw [if_pos (by omega)]
        · rw [if_neg h1] at hab
          by_cases h1b : y.toNat < x.toNat
          · rw [if_pos h1b] at hab; exact absurd hab (by simp)
          · rw [if_neg h1b] at hab
            by_cases h2 : y.toNat < z.toNat
            · rw [if_pos (by omega)]
            · rw [if_neg h2] at hbc
              by_cases h3 : z.toNat < y.toNat
              · rw [if_pos h3] at hbc; exact absurd hbc (by simp)
              · rw [if_neg h3] at hbc
                rw [if_neg (by omega), if_neg (by omega)]
                exact ih ys zs hab hbc

theorem charListLe_antisymm : ∀ a b : List Char, charListLe a b = true →
    charListLe b a = true → a = b := by
  intro a
  induction a with
  | nil =>
    intro b hab hba
    cases b with
    | nil => rfl
    | cons y ys => exact absurd hba (by simp [charListLe])
  | cons x xs ih =>
    intro b hab hba
    cases b with
    | nil => exact absurd hab (by simp [charListLe])
    | cons y ys =>
      simp only [charListLe] at hab hba
      by_cases h1 : x.toNat < y.toNat
      · rw [if_neg (by omega), if_pos h1] at hba
        exact absurd hba (by simp)
      · by_cases h2 : y.toNat < x.toNat
        · rw [if_neg h1, if_pos h2] at hab
          exact absurd hab (by simp)
        · rw [if_neg h1, if_neg h2] at hab
          rw [if_neg h2, if_neg h1] at hba
          rw [char_toNat_inj (show x.toNat = y.toNat by omega), ih ys hab hba]

theorem string_data_inj {a b : String} (h : a.data = b.data) : a = b :=
  congrArg String.mk h

/-- Ranking order of `pos_ranked`: score descending, then vote count
descending, then canonical POS order, then label (the Python sort key
`(-score, -count, POS_ORDER_INDEX.get(label, 999), label)`). -/
def rankRel (rows : List SrcRow) (a b : String) : Prop :=
  posScore rows b < posScore rows a ∨
  (posScore rows a = posScore rows b ∧
    (posVotes rows b < posVotes rows a ∨
      (posVotes rows a = posVotes rows b ∧
        (posOrderIdx a < posOrderIdx b ∨
          (posOrderIdx a = posOrderIdx b ∧ strLe a b = true)))))

instance (rows : List SrcRow) : DecidableRel (rankRel rows) := fun a b => by
  unfold rankRel
  infer_instance

theorem rankRel_total (rows : List SrcRow) (a b : String) :
    rankRel rows a b ∨ rankRel rows b a := by
  unfold rankRel
  rcases lt_trichotomy (posScore rows a) (posScore rows b) with h1 | h1 | h1
  · exact Or.inr (Or.inl h1)
  · rcases Nat.lt_trichotomy (posVotes rows a) (posVotes rows b) with h2 | h2 | h2
    · exact Or.inr (Or.inr ⟨h1.symm, Or.inl h2⟩)
    · rcases Nat.lt_trichotomy (posOrderIdx a) (posOrderIdx b) with h3 | h3 | h3
      · exact Or.inl (Or.inr ⟨h1, Or.inr ⟨h2, Or.inl h3⟩⟩)
      · rcases charListLe_total a.data b.data with h4 | h4
        · exact Or.inl (Or.inr ⟨h1, Or.inr ⟨h2, Or.inr ⟨h3, h4⟩⟩⟩)
        · exact Or.inr (Or.inr ⟨h1.symm, Or.inr ⟨h2.symm, Or.inr ⟨h3.symm, h4⟩⟩⟩)
      · exact Or.inr (Or.inr ⟨h1.symm, Or.inr ⟨h2.symm, Or.inl h3⟩⟩)
    · exact Or.inl (Or.inr ⟨h1, Or.inl h2⟩)
  · exact Or.inl (Or.inl h1)

theorem rankRel_trans (rows : List SrcRow) (a b c : String)
    (hab : rankRel rows a b) (hbc : rankRel rows b c) : rankRel rows a c := by
  unfold rankRel at hab hbc ⊢
  have hba : posScore rows b ≤ posScore rows a := by
    rcases hab with h | ⟨h, _⟩
    · exact le_of_lt h
    · exact le_of_eq h.symm
  have hcb : posScore rows c ≤ posScore rows b := by
    rcases hbc with h | ⟨h, _⟩
    · exact le_of_lt h
    · exact le_of_eq h.symm
  rcases lt_or_eq_of_le (le_trans hcb hba) with hs | hs
  · exact Or.inl hs
  · rcases hab with h | ⟨hse1, hab2⟩
    · exact Or.inl (by linarith)
    rcases hbc with h | ⟨hse2, hbc2⟩
    · exact Or.inl (by linarith)
    refine Or.inr ⟨hs.symm, ?_⟩
    have hvba : posVotes rows b ≤ posVotes rows a := by
      rcases hab2 with h | ⟨h, _⟩
      · exact Nat.le_of_lt h
      · exact Nat.le_of_eq h.symm
    have hvcb : posVotes rows c ≤ posVotes rows b := by
      rcases hbc2 with h | ⟨h, _⟩
      · exact Nat.le_of_lt h
      · exact Nat.le_of_eq h.symm
    rcases Nat.lt_or_ge (posVotes rows c) (posVotes rows a) with hv | hv
    · exact Or.inl hv
    · rcases hab2 with h | ⟨hve1, hab3⟩
      · exact Or.inl (by omega)
      rcases hbc2 with h | ⟨hve2, hbc3⟩
      · exact Or.inl (by omega)
      refine Or.inr ⟨by omega, ?_⟩
      have hiab : posOrderIdx a ≤ posOrderIdx b := by
        rcases hab3 with h | ⟨h, _⟩
        · exact Nat.le_of_lt h
        · exact Nat.le_of_eq h
      have hibc : posOrderIdx b ≤ posOrderIdx c := by
        rcases hbc3 with h | ⟨h, _⟩
        · exact Nat.le_of_lt h
        · exact Nat.le_of_eq h
      rcases Nat.lt_or_ge (posOrderIdx a) (posOrderIdx c) with hi | hi
      · exact Or.inl hi
      · rcases hab3 with h | ⟨hie1, hab4⟩
        · exact Or.inl (by omega)
        rcases hbc3 with h | ⟨hie2, hbc4⟩
        · exact Or.inl (by omega)
        exact Or.inr ⟨by omega, charListLe_trans _ _ _ hab4 hbc4⟩

theorem rankRel_antisymm (rows : List SrcRow) (a b : String)
    (hab : rankRel rows a b) (hba : rankRel rows b a) : a = b := by
  unfold rankRel at hab hba
  have hsba : posScore rows b ≤ posScore rows a := by
    rcases hab with h | ⟨h, _⟩
    · exact le_of_lt h
    · exact le_of_eq h.symm
  have hsab : posScore rows a ≤ posScore rows b := by
    rcases hba with h | ⟨h, _⟩
    · exact le_of_lt h
    · exact le_of_eq h.symm
  rcases hab with h | ⟨_, hab2⟩
  · exact absurd h (not_lt.mpr hsab)
  rcases hba with h | ⟨_, hba2⟩
  · exact absurd h (not_lt.mpr hsba)
  have hvba : posVotes rows b ≤ posVotes rows a := by
    rcases hab2 with h | ⟨h, _⟩
    · exact Nat.le_of_lt h
    · exact Nat.le_of_eq h.symm
  have hvab : posVotes rows a ≤ posVotes rows b := by
    rcases hba2 with h | ⟨h, _⟩
    · exact Nat.le_of_lt h
    · exact Nat.le_of_eq h.symm
  rcases hab2 with h | ⟨_, hab3⟩
  · exact absurd h (by omega)
  rcases hba2 with h | ⟨_, hba3⟩
  · exact absurd h (by omega)
  have hiab : posOrderIdx a ≤ posOrderIdx b := by
    rcases hab3 with h | ⟨h, _⟩
    · exact Nat.le_of_lt h
    · exact Nat.le_of_eq h
  have hiba : posOrderIdx b ≤ posOrderIdx a := by
    rcases hba3 with h | ⟨h, _⟩
    · exact Nat.le_of_lt h
    · exact Nat.le_of_eq h
  rcases hab3 with h | ⟨_, hab4⟩
  · exact absurd h (by omega)
  rcases hba3 with h | ⟨_, hba4⟩
  · exact absurd h (by omega)
  exact string_data_inj (charListLe_antisymm _ _ hab4 hba4)

/-- Ranked POS candidates of a group (`pos_ranked`). -/
def pos_ranked (rows : List SrcRow) : List String :=
  List.insertionSort (rankRel rows) (posLabels rows)

/-- Primary POS of a group. -/
def pos_primary (rows : List SrcRow) : String := (pos_ranked rows).headD ""

/-- Secondary POS of a group (empty when only one label is present). -/
def pos_secondary (rows : List SrcRow) : String :=
  ((pos_ranked rows).drop 1).headD ""

/-- Primary score of a group. -/
def pos_score_primary (rows : List SrcRow) : ℚ := posScore rows (pos_primary rows)

/-- Secondary score of a group (`0.0` when there is no secondary). -/
def pos_score_secondary (rows : List SrcRow) : ℚ :=
  if pos_secondary rows = "" then 0 else posScore rows (pos_secondary rows)

/-- Rows of the merge group of one normalized headword. -/
def rowsFor (h : String) (l : List SrcRow) : List SrcRow :=
  l.filter (fun r => r.headword_norm == h)

theorem posScore_perm {r1 r2 : List SrcRow} (hp : r1.Perm r2) (p : String) :
    posScore r1 p = posScore r2 p := by
  unfold posScore posVotes
  rw [((hp.filter _).map rowScore).sum_eq, hp.countP_eq]

theorem posVotes_perm {r1 r2 : List SrcRow} (hp : r1.Perm r2) (p : String) :
    posVotes r1 p = posVotes r2 p := hp.countP_eq _

theorem rankRel_perm {r1 r2 : List SrcRow} (hp : r1.Perm r2) (a b : String) :
    rankRel r1 a b ↔ rankRel r2 a b := by
  unfold rankRel
  rw [posScore_perm hp a, posScore_perm hp b, posVotes_perm hp a, posVotes_perm hp b]

/-- The ranked candidate list depends only on the multiset of rows. -/
theorem pos_ranked_perm {r1 r2 : List SrcRow} (hp : r1.Perm r2) :
    pos_ranked r1 = pos_ranked r2 := by
  haveI ht1 : IsTotal String (rankRel r1) := ⟨rankRel_total r1⟩
  haveI htr1 : IsTrans String (rankRel r1) := ⟨rankRel_trans r1⟩
  haveI hat1 : IsAntisymm String (rankRel r1) := ⟨rankRel_antisymm r1⟩
  haveI ht2 : IsTotal String (rankRel r2) := ⟨rankRel_total r2⟩
  haveI htr2 : IsTrans String (rankRel r2) := ⟨rankRel_trans r2⟩
  have hperm : (pos_ranked r1).Perm (pos_ranked r2) :=
    ((List.perm_insertionSort _ _).trans ((hp.map _).dedup)).trans
      (List.perm_insertionSort _ _).symm
  have hs1 : (pos_ranked r1).Sorted (rankRel r1) :=
    List.sorted_insertionSort (rankRel r1) (posLabels r1)
  have hs2 : (pos_ranked r2).Sorted (rankRel r1) :=
    (List.sorted_insertionSort (rankRel r2) (posLabels r2)).imp
      (fun hab => (rankRel_perm hp _ _).mpr hab)
  exact List.eq_of_perm_of_sorted hperm hs1 hs2

/-- C6.  Aggregation is order-insensitive: permuting the input rows leaves,
for every merged headword group, the primary POS, the secondary POS and both
aggregated scores unchanged, because candidates are ranked by the total
tie-break order (score desc, votes desc, canonical POS order, label). -/
theorem C6_aggregation_order_insensitive (l1 l2 : List SrcRow)
    (hperm : l1.Perm l2) (h : String) :
    pos_primary (rowsFor h l1) = pos_primary (rowsFor h l2) ∧
    pos_secondary (rowsFor h l1) = pos_secondary (rowsFor h l2) ∧
    pos_score_primary (rowsFor h l1) = pos_score_primary (rowsFor h l2) ∧
    pos_score_secondary (rowsFor h l1) = pos_score_secondary (rowsFor h l2) := by
  have hp : (rowsFor h l1).Perm (rowsFor h l2) := hperm.filter _
  have hr : pos_ranked (rowsFor h l1) = pos_ranked (rowsFor h l2) :=
    pos_ranked_perm hp
  have h1 : pos_primary (rowsFor h l1) = pos_primary (rowsFor h l2) := by
    unfold pos_primary; rw [hr]
  have h2 : pos_secondary (rowsFor h l1) = pos_secondary (rowsFor h l2) := by
    unfold pos_secondary; rw [hr]
  refine ⟨h1, h2, ?_, ?_⟩
  · unfold pos_score_primary
    rw [h1, posScore_perm hp]
  · unfold pos_score_secondary
    rw [h2, posScore_perm hp]

/-- C6 witness: two concrete two-row groups that are permutations of each
other, with the conclusion instantiated by the theorem itself. -/
theorem C6_witness :
    ([⟨"run", "noun", 82, 1, "meaning_gerund_noun"⟩,
      ⟨"run", "verb", 84, 4, "meaning_dict_form_verb"⟩] : List SrcRow).Perm
      [⟨"run", "verb", 84, 4, "meaning_dict_form_verb"⟩,
       ⟨"run", "noun", 82, 1, "meaning_gerund_noun"⟩] ∧
    pos_primary (rowsFor "run"
      [⟨"run", "noun", 82, 1, "meaning_gerund_noun"⟩,
       ⟨"run", "verb", 84, 4, "meaning_dict_form_verb"⟩]) =
    pos_primary (rowsFor "run"
      [⟨"run", "verb", 84, 4, "meaning_dict_form_verb"⟩,
       ⟨"run", "noun", 82, 1, "meaning_gerund_noun"⟩]) :=
  ⟨by decide,
   (C6_aggregation_order_insensitive _ _ (by decide) "run").1⟩

/-! ## Wordbank entries and Review Triage -/

/-- One wordbank row (`WordbankEntry`), restricted to the fields read or
written by the triage and confirmation stages. -/
structure Entry where
  entry_id : String
  headword : String
  headword_norm : String
  meaning_ja_short : String
  pos : String
  pos_label_ja : String
  pos_secondary : String
  pos_candidates : String
  pos_confidence : Nat
  pos_score_margin : ℚ
  is_multi_pos : Bool
  pos_evidence : String
  stage : Nat
  source_count : Nat
  group_order : Nat
  group_id : String
  group_label : String
deriving DecidableEq, Repr

/-- Review score of an entry: the additive point rules of
`build_pos_review_candidates` (each condition contributes independently). -/
def reviewScore (e : Entry) : Nat :=
  (if e.pos_confidence < 60 then 5 else if e.pos_confidence < 70 then 3 else 0) +
  (if e.is_multi_pos then 3 else 0) +
  (if e.pos_score_margin < 15 then 4 else if e.pos_score_margin < 35 then 2 else 0) +
  (if clean_text e.pos_evidence = "fallback_noun" ∨
      clean_text e.pos_evidence = "verb_suffix" then 2 else 0) +
  (if 5 ≤ e.source_count ∧ e.is_multi_pos = true then 1 else 0) +
  (if 4 ≤ e.stage then 1 else 0)

/-- Review priority of an entry (`HIGH`/`MEDIUM`/`LOW` thresholds of the
source). -/
def reviewPriority (e : Entry) : String :=
  if 8 ≤ reviewScore e then "HIGH"
  else if 5 ≤ reviewScore e then "MEDIUM"
  else "LOW"

/-- Emission condition into the review output (the guard around
`review_rows.append`). -/
def reviewEmit (e : Entry) : Bool :=
  decide (5 ≤ reviewScore e) || e.is_multi_pos || decide (e.pos_confidence < 70)

/-- C9.  Triage assigns HIGH exactly at review score ≥ 8, MEDIUM exactly at
score in `[5, 8)`, LOW otherwise, and emits an entry into the review output
exactly when score ≥ 5, or the entry is multi-POS, or its confidence is
below 70. -/
theorem C9_triage_thresholds (e : Entry) :
    (reviewPriority e = "HIGH" ↔ 8 ≤ reviewScore e) ∧
    (reviewPriority e = "MEDIUM" ↔ (5 ≤ reviewScore e ∧ reviewScore e < 8)) ∧
    (reviewPriority e = "LOW" ↔ reviewScore e < 5) ∧
    (reviewEmit e = true ↔
      (5 ≤ reviewScore e ∨ e.is_multi_pos = true ∨ e.pos_confidence < 70)) := by
  have hemit : reviewEmit e = true ↔
      (5 ≤ reviewScore e ∨ e.is_multi_pos = true ∨ e.pos_confidence < 70) := by
    unfold reviewEmit
    simp [Bool.or_eq_true, decide_eq_true_eq, or_assoc]
  refine ⟨?_, ?_, ?_, hemit⟩
  · unfold reviewPriority
    split_ifs with h1 h2
    · exact iff_of_true rfl h1
    · exact iff_of_false (by decide) h1
    · exact iff_of_false (by decide) h1
  · unfold reviewPriority
    split_ifs with h1 h2
    · exact iff_of_false (by decide) (by omega)
    · exact iff_of_true rfl ⟨h2, by omega⟩
    · exact iff_of_false (by decide) (by omega)
  · unfold reviewPriority
    split_ifs with h1 h2
    · exact iff_of_false (by decide) (by omega)
    · exact iff_of_false (by decide) (by omega)
    · exact iff_of_true rfl (by omega)

/-! ## Candidate-map parsing and meaning markers (confirmation inputs) -/

/-- Split on a single separator character, keeping empty segments
(Python `str.split`). -/
def splitOnCharAux (sep : Char) : List Char → List Char → List (List Char)
  | [], acc => [acc.reverse]
  | c :: cs, acc =>
    if c = sep then acc.reverse :: splitOnCharAux sep cs []
    else splitOnCharAux sep cs (c :: acc)

/-- Character split. -/
def splitOnChar (sep : Char) (l : List Char) : List (List Char) :=
  splitOnCharAux sep l []

/-- Split at the first colon (`piece.split(":", 1)`), `none` when the piece
has no colon. -/
def splitFirstColon : List Char → Option (List Char × List Char)
  | [] => none
  | c :: cs =>
    if c = ':' then some ([], cs)
    else
      match splitFirstColon cs with
      | none => none
      | some (a, b) => some (c :: a, b)

/-- Accumulates the value of an ASCII digit string. -/
def digitsValAux : List Char → Nat → Option Nat
  | [], acc => some acc
  | c :: cs, acc =>
    if 48 ≤ c.toNat ∧ c.toNat ≤ 57 then digitsValAux cs (acc * 10 + (c.toNat - 48))
    else none

/-- Model of Python `int(...)` on a cleaned string: optional sign followed by
at least one digit (restricted to ASCII digits, the only digits produced by
this pipeline); `none` models the `ValueError` branch. -/
def parseIntAscii : List Char → Option Int
  | [] => none
  | c :: cs =>
    if c = '-' then
      if cs.isEmpty then none else (digitsValAux cs 0).map (fun n => -(n : Int))
    else if c = '+' then
      if cs.isEmpty then none else (digitsValAux cs 0).map (fun n => (n : Int))
    else (digitsValAux (c :: cs) 0).map (fun n => (n : Int))

/-- Embedding of `parse_pos_candidates_map` from the source, as the ordered
list of `(pos, count)` assignments. -/
def candPairs (s : String) : List (String × Int) :=
  (splitOnChar '|' (cleanL s.data)).filterMap (fun part =>
    let piece := stripEnds isPySpace part
    if piece.isEmpty then none
    else
      match splitFirstColon piece with
      | none => none
      | some (a, b) =>
        let posName := cleanL a
        match parseIntAscii (cleanL b) with
        | none => none
        | some count => if posName.isEmpty then none else some (⟨posName⟩, count))

/-- Dictionary lookup on the parsed candidate map with a default
(`candidates_map.get(key, dflt)`; duplicate keys resolve to the last
assignment, as for a Python dict). -/
def candidatesGet (s : String) (key : String) (dflt : Int) : Int :=
  match (candPairs s).reverse.find? (fun pr => pr.1 == key) with
  | some pr => pr.2
  | none => dflt

/-- Option test used to phrase marker hypotheses decidably. -/
def optAll {α : Type} (p : α → Bool) : Option α → Bool
  | none => true
  | some a => p a

/-- Embedding of `infer_pos_from_meaning_markers` from the source: explicit
tags first (single tag, or leading non-noun tag), then the gerund-noun,
verbalizer, adjectival and adverbial marker patterns. -/
def infer_pos_from_meaning_markers (meaning : String) : Option String :=
  if (ipMNorm meaning).isEmpty then none
  else if !(ipTags meaning).isEmpty && ((ipTags meaning).length == 1) then
    some ((ipTags meaning).headD "")
  else if !(ipTags meaning).isEmpty && !((ipTags meaning).headD "" == "noun") then
    some ((ipTags meaning).headD "")
  else if listContainsSub "すること".data (ipMNorm meaning) then some "noun"
  else if searchBounded suruTail (ipMNorm meaning) then some "verb"
  else if listContainsSub "的な".data (ipMNorm meaning) ||
      searchBounded (jpBoundedTail 'な') (ipMNorm meaning) then some "adjective"
  else if listContainsSub "的に".data (ipMNorm meaning) ||
      searchBounded (jpBoundedTail 'に') (ipMNorm meaning) then some "adverb"
  else none

/-! ## Confirmation decision (`confirm_priority_pos`, per-entry rule cascade) -/

/-- Outcome of the per-entry confirmation cascade. -/
structure ConfirmDecision where
  confirmed_pos : String
  method : String
  reason : String
  changed : Bool
  confirmation_confidence : ℚ
deriving DecidableEq, Repr

/-- Primary vote count read by `confirm_priority_pos`. -/
def cdPrimaryCount (e : Entry) : Int :=
  candidatesGet e.pos_candidates (clean_text e.pos) 0

/-- Secondary vote count read by `confirm_priority_pos` (0 when no
secondary). -/
def cdSecondaryCount (e : Entry) : Int :=
  if clean_text e.pos_secondary = "" then 0
  else candidatesGet e.pos_candidates (clean_text e.pos_secondary) 0

/-- Rule 4 of the cascade (`elif` branch): fallback-noun entries with a
sufficiently supported secondary are overridden to the secondary; otherwise
keep current.  The threshold `int(primary_count * 0.6)` is modelled as exact
truncated division `6·n / 10`, which agrees with the source's float
computation for all counts below 3·10⁶. -/
def secondaryVoteRule (current secondary evidence : String)
    (primaryCount secondaryCount : Int) : ConfirmDecision :=
  if current = "noun" ∧ evidence = "fallback_noun" ∧ secondary ≠ "" ∧
      secondary ≠ current ∧ 4 ≤ secondaryCount ∧
      max 3 (Int.tdiv (6 * primaryCount) 10) ≤ secondaryCount then
    ⟨secondary, "secondary_vote_override",
     "fallback_noun_with_secondary_votes:" ++ secondary, true, 9/10⟩
  else ⟨current, "keep_current", "no_override_rule", false, 7/10⟩

/-- Per-entry decision of `confirm_priority_pos` (lines computing
`confirmed_pos`, `method`, `reason`, `changed`, and the confirmation
confidence `0.98 / 0.9 / 0.7`).  The `0.8` and `0.7` marker thresholds are
modelled as exact truncated division; the float `int(n * 0.8)` agrees with
`8·n / 10` for all counts below 3·10⁶, while `int(n * 0.7)` first deviates
from `7·n / 10` at `n = 90`, far above any vote count this pipeline
produces. -/
def confirm_decision (e : Entry) : ConfirmDecision :=
  if ADVERB_HEADWORDS.contains (clean_text e.headword_norm) = true ∧
      clean_text e.pos ≠ "adverb" then
    ⟨"adverb", "headword_adverb_override", "explicit_adverb_headword_list",
     true, 49/50⟩
  else if ADJECTIVE_HEADWORDS.contains (clean_text e.headword_norm) = true ∧
      clean_text e.pos ≠ "adjective" then
    ⟨"adjective", "headword_adjective_override", "explicit_adjective_headword_list",
     true, 49/50⟩
  else
    match infer_pos_from_meaning_markers (clean_text e.meaning_ja_short) with
    | some mp =>
      if mp ≠ clean_text e.pos then
        if (clean_text e.pos_secondary ≠ "" ∧ mp = clean_text e.pos_secondary ∧
            max 3 (Int.tdiv (8 * cdPrimaryCount e) 10) ≤ cdSecondaryCount e) ∨
           (mp = "verb" ∧ clean_text e.pos_secondary = "verb" ∧
            max 3 (Int.tdiv (7 * cdPrimaryCount e) 10) ≤ cdSecondaryCount e) then
          ⟨mp, "meaning_marker_override", "meaning_marker_with_votes:" ++ mp,
           true, 9/10⟩
        else ⟨clean_text e.pos, "keep_current", "no_override_rule", false, 7/10⟩
      else
        secondaryVoteRule (clean_text e.pos) (clean_text e.pos_secondary)
          (clean_text e.pos_evidence) (cdPrimaryCount e) (cdSecondaryCount e)
    | none =>
      secondaryVoteRule (clean_text e.pos) (clean_text e.pos_secondary)
        (clean_text e.pos_evidence) (cdPrimaryCount e) (cdSecondaryCount e)

/-- Entry used as the C3 counterexample: a fallback-noun entry whose meaning
carries an adjectival marker that is not vote-supported. -/
def c3Entry : Entry :=
  ⟨"WB000001", "zzz", "zzz", "的な", "noun", "名詞", "verb", "noun:5 | verb:4",
   45, 2, true, "fallback_noun", 3, 2, 2, "S03_NOUN_Z", "名詞 / Z"⟩

/-- C3 counterexample.  On `c3Entry` neither headword rule fires and the
gloss-marker rule does not fire (the marker `adjective` lacks vote support),
and all of rule 4's listed conditions hold — current POS `noun`, evidence
`fallback_noun`, secondary `verb` present and different, secondary count
`4 ≥ 4` and `4 ≥ max(3, 0.6·5)` — yet the code keeps `noun` unchanged: the
unsupported marker branch swallows the `elif` that implements rule 4, so the
claim's "first applicable rule wins" reading is false. -/
theorem C3_counterexample :
    (ADVERB_HEADWORDS.contains (clean_text c3Entry.headword_norm) = false) ∧
    (ADJECTIVE_HEADWORDS.contains (clean_text c3Entry.headword_norm) = false) ∧
    (confirm_decision c3Entry).method ≠ "meaning_marker_override" ∧
    clean_text c3Entry.pos = "noun" ∧
    clean_text c3Entry.pos_evidence = "fallback_noun" ∧
    clean_text c3Entry.pos_secondary = "verb" ∧
    cdSecondaryCount c3Entry = 4 ∧
    max 3 (Int.tdiv (6 * cdPrimaryCount c3Entry) 10) = 3 ∧
    (confirm_decision c3Entry).changed = false ∧
    (confirm_decision c3Entry).confirmed_pos = "noun" := by
  decide

/-- C3 amended.  With the marker branch's precedence made explicit: for every
entry where neither headword rule fires and the meaning yields no marker POS
different from the current POS, if the current POS is `noun` with evidence
`fallback_noun`, a secondary POS exists and differs, and the secondary vote
count is ≥ 4 and ≥ max(3, 0.6 × primary count), then the decision overrides
to the secondary POS with confirmation confidence 0.9. -/
theorem C3_secondary_vote_override (e : Entry)
    (h1 : ¬(ADVERB_HEADWORDS.contains (clean_text e.headword_norm) = true ∧
      clean_text e.pos ≠ "adverb"))
    (h2 : ¬(ADJECTIVE_HEADWORDS.contains (clean_text e.headword_norm) = true ∧
      clean_text e.pos ≠ "adjective"))
    (h3 : optAll (fun mp => mp == clean_text e.pos)
      (infer_pos_from_meaning_markers (clean_text e.meaning_ja_short)) = true)
    (h4 : clean_text e.pos = "noun")
    (h5 : clean_text e.pos_evidence = "fallback_noun")
    (h6 : clean_text e.pos_secondary ≠ "")
    (h7 : clean_text e.pos_secondary ≠ clean_text e.pos)
    (h8 : 4 ≤ cdSecondaryCount e)
    (h9 : max 3 (Int.tdiv (6 * cdPrimaryCount e) 10) ≤ cdSecondaryCount e) :
    confirm_decision e =
      ⟨clean_text e.pos_secondary, "secondary_vote_override",
       "fallback_noun_with_secondary_votes:" ++ clean_text e.pos_secondary,
       true, 9/10⟩ := by
  unfold confirm_decision
  rw [if_neg h1, if_neg h2]
  have hrule4 : secondaryVoteRule (clean_text e.pos) (clean_text e.pos_secondary)
      (clean_text e.pos_evidence) (cdPrimaryCount e) (cdSecondaryCount e) =
      ⟨clean_text e.pos_secondary, "secondary_vote_override",
       "fallback_noun_with_secondary_votes:" ++ clean_text e.pos_secondary,
       true, 9/10⟩ := by
    unfold secondaryVoteRule
    rw [if_pos ⟨h4, h5, h6, h7, h8, h9⟩]
  cases hmark : infer_pos_from_meaning_markers (clean_text e.meaning_ja_short) with
  | none => exact hrule4
  | some mp =>
    have hmp : mp = clean_text e.pos := by
      rw [hmark] at h3
      simpa [optAll] using h3
    dsimp only
    rw [if_neg (show ¬(mp ≠ clean_text e.pos) by rw [hmp]; exact fun hcon => hcon rfl)]
    exact hrule4

/-- C3 witness: a concrete marker-free fallback-noun entry on which the
amended rule fires. -/
theorem C3_witness :
    confirm_decision
      ⟨"WB000002", "zzz", "zzz", "テスト", "noun", "名詞", "verb",
       "noun:5 | verb:4", 45, 2, true, "fallback_noun", 3, 2, 2,
       "S03_NOUN_Z", "名詞 / Z"⟩ =
      ⟨"verb", "secondary_vote_override", "fallback_noun_with_secondary_votes:verb",
       true, 9/10⟩ :=
  C3_secondary_vote_override _ (by decide) (by decide) (by decide) (by decide)
    (by decide) (by decide) (by decide) (by decide) (by decide)

/-! ## Shared mutation helpers of the confirmation/application stages -/

/-- Embedding of `first_alpha`: the first ASCII lowercase letter, or `_`. -/
def first_alpha (l : List Char) : Char :=
  (l.find? (fun c => decide (97 ≤ c.toNat) && decide (c.toNat ≤ 122))).getD '_'

/-- Uppercased group letter of an entry (`first_alpha(headword_norm).upper()`),
computed from the row the mutation reads. -/
def groupLetter (hwNorm : String) : String :=
  ⟨[pyUpper (first_alpha (clean_text hwNorm).data)]⟩

/-- Python `f"{n:02d}"` for a natural number. -/
def pad2 (n : Nat) : String :=
  if n < 10 then "0" ++ toString n else toString n

/-- Group id recomputed after a POS change
(`f"S{stage:02d}_{new_pos.upper()}_{letter}"`). -/
def groupIdOf (stage : Nat) (newPos : String) (hwNorm : String) : String :=
  "S" ++ pad2 stage ++ "_" ++ strUpper newPos ++ "_" ++ groupLetter hwNorm

/-- Group label recomputed after a POS change. -/
def groupLabelOf (newPos : String) (hwNorm : String) : String :=
  posLabelJa newPos ++ " / " ++ groupLetter hwNorm

/-- Conversion `int(float(c) * 100)` of a confirmation confidence; exact for
the pipeline's values 0.98 and 0.9. -/
def confTo100 (q : ℚ) : Nat := (Int.tdiv (q.num * 100) (q.den : Int)).toNat

/-! ## Priority-confirmation wordbank application (`confirm_priority_pos`) -/

/-- One row of the confirmation DataFrame, as used by the application loop. -/
structure ConfirmRow where
  entry_id : String
  confirmed_pos : String
  method : String
  confirmation_confidence : ℚ
  changed : Bool
deriving DecidableEq, Repr

/-- Lookup in `changed_map` (a dict keyed by `entry_id` built from the
`changed` confirmation rows; later rows overwrite earlier ones). -/
def changedLookup (cs : List ConfirmRow) (eid : String) : Option ConfirmRow :=
  ((cs.filter (·.changed)).reverse).find? (fun c => c.entry_id == eid)

/-- Wordbank application loop of `confirm_priority_pos` (lines mutating
`wb_confirmed`): each row whose id is in `changed_map` and whose confirmed
POS is non-empty and differs from the row's POS is rewritten, with the
secondary set to the prior primary. -/
def confirm_apply (evidencePre : String) (wb : List Entry) (cs : List ConfirmRow) :
    List Entry :=
  wb.map (fun row =>
    match changedLookup cs (clean_text row.entry_id) with
    | none => row
    | some payload =>
      let newPos := clean_text payload.confirmed_pos
      let oldPos := clean_text row.pos
      if newPos = "" ∨ newPos = oldPos then row
      else
        { row with
          pos_secondary := oldPos,
          pos := newPos,
          pos_label_ja := posLabelJa newPos,
          is_multi_pos := true,
          pos_evidence := evidencePre ++ ":" ++ clean_text payload.method,
          pos_confidence := max row.pos_confidence (confTo100 payload.confirmation_confidence),
          group_order := posOrderIdx newPos,
          group_id := groupIdOf row.stage newPos row.headword_norm,
          group_label := groupLabelOf newPos row.headword_norm })

/-! ## Quick-win application (`apply_quickwin_confirmations`) -/

/-- One quick-win queue row (the fields the applier reads). -/
structure QuickwinRow where
  entry_id : String
  suggested_pos_auto : String
  suggested_reason : String
deriving DecidableEq, Repr

/-- Quick-win confirmation records (`records` of the source): suggestions
with a resolvable entry whose current POS differs, keyed by entry id. -/
def quickwinRecords (wb : List Entry) (qs : List QuickwinRow) :
    List (String × String) :=
  qs.filterMap (fun q =>
    let eid := clean_text q.entry_id
    let sug := clean_text q.suggested_pos_auto
    if eid = "" ∨ sug = "" then none
    else
      match wb.find? (fun e => e.entry_id == eid) with
      | none => none
      | some wbRow =>
        let current := clean_text wbRow.pos
        if current = "" ∨ current = sug then none
        else some (eid, sug))

/-- Wordbank mutation loop of `apply_quickwin_confirmations`. -/
def quickwin_apply (wb : List Entry) (qs : List QuickwinRow) : List Entry :=
  wb.map (fun row =>
    match ((quickwinRecords wb qs).reverse).find?
        (fun pr => pr.1 == clean_text row.entry_id) with
    | none => row
    | some pr =>
      let newPos := clean_text pr.2
      let oldPos := clean_text row.pos
      { row with
        pos_secondary := oldPos,
        pos := newPos,
        pos_label_ja := posLabelJa newPos,
        is_multi_pos := true,
        pos_evidence := "quickwin_confirm",
        pos_confidence := max row.pos_confidence 88,
        group_order := posOrderIdx newPos,
        group_id := groupIdOf row.stage newPos row.headword_norm,
        group_label := groupLabelOf newPos row.headword_norm })

/-! ## Manual batch decisions (`apply_manual_batch_decisions`) -/

/-- One raw row of a reviewer batch file (the columns the intake reads). -/
structure BatchRow where
  entry_id : String
  headword_norm : String
  meaning_ja_short : String
  decision_pos : String
  decision_reason : String
  reviewer : String
  status : String
deriving DecidableEq, Repr

/-- A validated manual decision (`candidate_rows` entries). -/
structure Candidate where
  entry_id : String
  headword_norm : String
  meaning_ja_short : String
  decision_pos : String
  decision_reason : String
  reviewer : String
  status : String
  batch_file : String
  row_index : Nat
deriving DecidableEq, Repr

/-- One row of the ignored-decisions output. -/
structure IgnoredRow where
  entry_id : String
  decision_pos : String
  status : String
  batch_file : String
  row_index : Nat
  reason : String
deriving DecidableEq, Repr

/-- One row of the applied-decisions output. -/
structure AppliedRow where
  source_entry_id : String
  entry_id : String
  headword_norm : String
  before_pos : String
  after_pos : String
  changed : Bool
  decision_reason : String
  reviewer : String
  status : String
  batch_file : String
  row_index : Nat
deriving DecidableEq, Repr

/-- Status values accepted as ready (`accepted_status`). -/
def accepted_status : List String :=
  ["done", "confirmed", "approved", "apply", "applied", "manual_done", "complete"]

/-- Per-row intake of the batch-reading loop (lines 2059–2107): rows with an
empty id or empty decision POS are skipped outright (`continue` with no
record); an unknown decision POS or an unready status is recorded as ignored;
otherwise the row becomes a candidate. -/
def parseBatchRow (file : String) (rowIdx : Nat) (r : BatchRow) :
    Option (Sum IgnoredRow Candidate) :=
  if clean_text r.entry_id = "" then none
  else if strLower (clean_text r.decision_pos) = "" then none
  else if POS_ORDER.contains (strLower (clean_text r.decision_pos)) = false then
    some (Sum.inl ⟨clean_text r.entry_id, strLower (clean_text r.decision_pos),
      strLower (clean_text r.status), file, rowIdx + 1, "invalid_decision_pos"⟩)
  else if strLower (clean_text r.status) ≠ "" ∧
      accepted_status.contains (strLower (clean_text r.status)) = false then
    some (Sum.inl ⟨clean_text r.entry_id, strLower (clean_text r.decision_pos),
      strLower (clean_text r.status), file, rowIdx + 1, "status_not_ready"⟩)
  else
    some (Sum.inr ⟨clean_text r.entry_id, clean_text r.headword_norm,
      clean_text r.meaning_ja_short, strLower (clean_text r.decision_pos),
      clean_text r.decision_reason, clean_text r.reviewer,
      (if strLower (clean_text r.status) = "" then "done"
       else strLower (clean_text r.status)), file, rowIdx + 1⟩)

/-- Intake of one batch file, rows indexed from zero as by `df.iterrows()`. -/
def parseFileRows (file : String) (rows : List BatchRow) :
    List (Sum IgnoredRow Candidate) :=
  rows.enum.filterMap (fun pr => parseBatchRow file pr.1 pr.2)

/-- Intake of all batch files in the given (sorted-glob) order. -/
def collectAll (files : List (String × List BatchRow)) :
    List (Sum IgnoredRow Candidate) :=
  files.flatMap (fun f => parseFileRows f.1 f.2)

/-- Validated candidates of all files, in file/row order. -/
def candidatesOf (files : List (String × List BatchRow)) : List Candidate :=
  (collectAll files).filterMap (fun s =>
    match s with
    | Sum.inr c => some c
    | Sum.inl _ => none)

/-- Intake-phase ignored rows of all files. -/
def parseIgnoredOf (files : List (String × List BatchRow)) : List IgnoredRow :=
  (collectAll files).filterMap (fun s =>
    match s with
    | Sum.inl i => some i
    | Sum.inr _ => none)

/-- Python `str(n).zfill(6)`. -/
def zfill6 (n : Nat) : String :=
  let s := toString n
  if s.length < 6 then (⟨List.replicate (6 - s.length) '0'⟩ : String) ++ s else s

/-- De-duplication sort key of the source:
`batch_file + "|" + str(row_index).zfill(6)`. -/
def candKey (c : Candidate) : String := c.batch_file ++ "|" ++ zfill6 c.row_index

/-- Sort of the candidates by the concatenated key. -/
def sortCands (cs : List Candidate) : List Candidate :=
  List.insertionSort (fun a b => strLe (candKey a) (candKey b) = true) cs

/-- `drop_duplicates(subset=["entry_id"], keep="last")`. -/
def keepLastById : List Candidate → List Candidate
  | [] => []
  | c :: l =>
    if l.any (fun d => d.entry_id == c.entry_id) then keepLastById l
    else c :: keepLastById l

/-- De-duplicated decisions: sort by the concatenated key, keep the last row
per entry id. -/
def dedupCandidates (cs : List Candidate) : List Candidate :=
  keepLastById (sortCands cs)

/-- Key view of a wordbank entry used by the resolution indexes: raw id,
cleaned headword, cleaned meaning. -/
def entryKey (e : Entry) : String × String × String :=
  (e.entry_id, clean_text e.headword_norm, clean_text e.meaning_ja_short)

/-- Embedding of the local `resolve_by_headword` over the key view: unique
(headword, meaning) match first, then unique headword match, else empty. -/
def resolve_by_headword (ks : List (String × String × String))
    (dh dm : String) : String :=
  if dh = "" then ""
  else
    let exactIds := ks.filterMap (fun k =>
      if k.2.1 ≠ "" ∧ k.2.1 = dh ∧ k.2.2 = dm then some (clean_text k.1) else none)
    if dm ≠ "" ∧ exactIds.length = 1 then exactIds.headD ""
    else
      let ids := ks.filterMap (fun k =>
        if k.2.1 ≠ "" ∧ k.2.1 = dh then some (clean_text k.1) else none)
      if ids.length = 1 then ids.headD "" else ""

/-- Entry resolution of one decision against the key view of the wordbank
snapshot (lines 2134–2205): exact id match with headword/meaning mismatch
checks, then best-effort re-resolution by headword, with the specific ignore
reasons of the source. -/
def resolveKeyed (ks : List (String × String × String)) (c : Candidate) :
    Sum String String :=
  let dh := clean_text c.headword_norm
  let dm := clean_text c.meaning_ja_short
  match ks.find? (fun k => k.1 == c.entry_id) with
  | some k =>
    if dh ≠ "" ∧ k.2.1 ≠ "" ∧ dh ≠ k.2.1 then
      if resolve_by_headword ks dh dm ≠ "" then Sum.inr (resolve_by_headword ks dh dm)
      else Sum.inl "entry_id_headword_mismatch_unresolved"
    else if dm ≠ "" ∧ k.2.2 ≠ "" ∧ dm ≠ k.2.2 ∧ dh ≠ "" then
      if resolve_by_headword ks dh dm ≠ "" then Sum.inr (resolve_by_headword ks dh dm)
      else Sum.inl "entry_id_meaning_mismatch_unresolved"
    else Sum.inr c.entry_id
  | none =>
    if resolve_by_headword ks dh dm ≠ "" then Sum.inr (resolve_by_headword ks dh dm)
    else if dh ≠ "" ∧ 2 ≤ (ks.filterMap (fun k =>
        if k.2.1 ≠ "" ∧ k.2.1 = dh then some (clean_text k.1) else none)).length then
      Sum.inl "headword_ambiguous"
    else Sum.inl "entry_not_found"

/-- Resolution against a wordbank snapshot. -/
def resolveDecision (wb : List Entry) (c : Candidate) : Sum String String :=
  resolveKeyed (wb.map entryKey) c

/-- First wordbank row with a given raw entry id (`wb_idx.loc`). -/
def wbFind (wb : List Entry) (eid : String) : Option Entry :=
  wb.find? (fun e => e.entry_id == eid)

/-- The resolved target of a decision, when resolution succeeds and the
resolved id is present in the snapshot (the guard at line 2207). -/
def resolvedTarget (wb : List Entry) (c : Candidate) : Option String :=
  match resolveDecision wb c with
  | Sum.inl _ => none
  | Sum.inr rid => if (wbFind wb rid).isSome then some rid else none

/-- In-place mutation of the first matching element. -/
def updateFirst (p : Entry → Bool) (f : Entry → Entry) : List Entry → List Entry
  | [] => []
  | x :: l => if p x then f x :: l else x :: updateFirst p f l

/-- The wordbank mutation of one applied manual decision (lines 2226–2237):
all POS-derived fields are recomputed from the snapshot row and the new
POS. -/
def manualMutate (snapRow : Entry) (newPos : String) (e : Entry) : Entry :=
  { e with
    pos_secondary := clean_text snapRow.pos,
    pos := newPos,
    pos_label_ja := posLabelJa newPos,
    is_multi_pos := true,
    pos_evidence := "manual_batch_confirm",
    pos_confidence := max snapRow.pos_confidence 95,
    group_order := posOrderIdx newPos,
    group_id := groupIdOf snapRow.stage newPos snapRow.headword_norm,
    group_label := groupLabelOf newPos snapRow.headword_norm }

/-- One step of the application loop.  Resolution and the old POS are read
from the pre-loop snapshot (`wb_idx` and the headword indexes are built once
before the loop, and `set_index` yields an independent copy), while mutations
accumulate in the evolving wordbank. -/
def applyStepWb (snap : List Entry) (cur : List Entry) (c : Candidate) :
    List Entry :=
  match resolveDecision snap c with
  | Sum.inl _ => cur
  | Sum.inr rid =>
    match wbFind snap rid with
    | none => cur
    | some row =>
      if clean_text row.pos ≠ clean_text c.decision_pos then
        updateFirst (fun e => e.entry_id == rid)
          (manualMutate row (clean_text c.decision_pos)) cur
      else cur

/-- Full application fold over the de-duplicated decisions. -/
def applyWb (snap : List Entry) (cs : List Candidate) (cur : List Entry) :
    List Entry :=
  cs.foldl (applyStepWb snap) cur

/-- Applied-rows output of one decision (`applied_rows.append`). -/
def appliedRowFor (snap : List Entry) (c : Candidate) : Option AppliedRow :=
  match resolveDecision snap c with
  | Sum.inl _ => none
  | Sum.inr rid =>
    match wbFind snap rid with
    | none => none
    | some row =>
      some ⟨c.entry_id, rid, clean_text row.headword_norm, clean_text row.pos,
        clean_text c.decision_pos,
        decide (clean_text row.pos ≠ clean_text c.decision_pos),
        clean_text c.decision_reason, clean_text c.reviewer,
        clean_text c.status, c.batch_file, c.row_index⟩

/-- Ignored-rows output of one unresolved decision. -/
def resolveIgnoredFor (snap : List Entry) (c : Candidate) : Option IgnoredRow :=
  match resolveDecision snap c with
  | Sum.inl reason =>
    some ⟨c.entry_id, c.decision_pos, c.status, c.batch_file, c.row_index, reason⟩
  | Sum.inr rid =>
    if (wbFind snap rid).isSome then none
    else some ⟨c.entry_id, c.decision_pos, c.status, c.batch_file, c.row_index,
      "entry_not_found"⟩

/-- Embedding of `apply_manual_batch_decisions` from the source (wordbank and
batch contents already in memory; file discovery and CSV parsing are the
out-of-scope collaborators): returns the applied rows, the updated wordbank
and the ignored rows. -/
def apply_manual_batch_decisions (wb : List Entry)
    (files : List (String × List BatchRow)) :
    List AppliedRow × List Entry × List IgnoredRow :=
  ((dedupCandidates (candidatesOf files)).filterMap (appliedRowFor wb),
   applyWb wb (dedupCandidates (candidatesOf files)) wb,
   parseIgnoredOf files ++
     (dedupCandidates (candidatesOf files)).filterMap (resolveIgnoredFor wb))

/-! ## C10: intake outcomes of manual batch rows -/

/-- C10.  A batch row whose cleaned entry id or cleaned decision POS is empty
is skipped outright (`none`: no candidate, no ignored record), while a
non-empty unrecognized decision POS is recorded as `invalid_decision_pos` and
a non-empty unaccepted status as `status_not_ready`. -/
theorem C10_intake_outcomes (file : String) (idx : Nat) (r : BatchRow) :
    (parseBatchRow file idx r = none ↔
      (clean_text r.entry_id = "" ∨ strLower (clean_text r.decision_pos) = "")) ∧
    (clean_text r.entry_id ≠ "" → strLower (clean_text r.decision_pos) ≠ "" →
      POS_ORDER.contains (strLower (clean_text r.decision_pos)) = false →
      parseBatchRow file idx r = some (Sum.inl ⟨clean_text r.entry_id,
        strLower (clean_text r.decision_pos), strLower (clean_text r.status),
        file, idx + 1, "invalid_decision_pos"⟩)) ∧
    (clean_text r.entry_id ≠ "" → strLower (clean_text r.decision_pos) ≠ "" →
      POS_ORDER.contains (strLower (clean_text r.decision_pos)) = true →
      strLower (clean_text r.status) ≠ "" →
      accepted_status.contains (strLower (clean_text r.status)) = false →
      parseBatchRow file idx r = some (Sum.inl ⟨clean_text r.entry_id,
        strLower (clean_text r.decision_pos), strLower (clean_text r.status),
        file, idx + 1, "status_not_ready"⟩)) := by
  unfold parseBatchRow
  split_ifs with h1 h2 h3 h4 h5
  · exact ⟨iff_of_true rfl (Or.inl h1),
      fun hne _ _ => absurd h1 hne, fun hne _ _ _ _ => absurd h1 hne⟩
  · exact ⟨iff_of_true rfl (Or.inr h2),
      fun _ hne _ => absurd h2 hne, fun _ hne _ _ _ => absurd h2 hne⟩
  · refine ⟨iff_of_false (by simp) (by push_neg; exact ⟨h1, h2⟩),
      fun _ _ _ => rfl, fun _ _ hc _ _ => ?_⟩
    rw [h3] at hc
    exact absurd hc (by simp)
  · refine ⟨iff_of_false (by simp) (by push_neg; exact ⟨h1, h2⟩),
      fun _ _ hcf => absurd hcf (by simpa using h3), fun _ _ _ _ _ => rfl⟩
  all_goals
    refine ⟨iff_of_false (by simp) (by push_neg; exact ⟨h1, h2⟩),
      fun _ _ hcf => absurd hcf (by simpa using h3),
      fun _ _ _ hs hacc => absurd ⟨hs, hacc⟩ h4⟩

/-- C10 witness: concrete rows exercising the skip, the invalid-POS record
and the unready-status record. -/
theorem C10_witness :
    parseBatchRow "f" 0 (⟨"", "h", "m", "verb", "", "", "done"⟩ : BatchRow) = none ∧
    parseBatchRow "f" 1 (⟨"X", "h", "m", "", "", "", "done"⟩ : BatchRow) = none ∧
    parseBatchRow "f" 2 (⟨"X", "h", "m", "verbz", "", "", "done"⟩ : BatchRow) =
      some (Sum.inl ⟨"X", "verbz", "done", "f", 3, "invalid_decision_pos"⟩) ∧
    parseBatchRow "f" 3 (⟨"X", "h", "m", "VERB", "", "", "todo"⟩ : BatchRow) =
      some (Sum.inl ⟨"X", "verb", "todo", "f", 4, "status_not_ready"⟩) :=
  ⟨(C10_intake_outcomes "f" 0 _).1.mpr (Or.inl (by decide)),
   (C10_intake_outcomes "f" 1 _).1.mpr (Or.inr (by decide)),
   by
     have h := (C10_intake_outcomes "f" 2
       (⟨"X", "h", "m", "verbz", "", "", "done"⟩ : BatchRow)).2.1
       (by decide) (by decide) (by decide)
     exact h,
   by
     have h := (C10_intake_outcomes "f" 3
       (⟨"X", "h", "m", "VERB", "", "", "todo"⟩ : BatchRow)).2.2
       (by decide) (by decide) (by decide) (by decide) (by decide)
     exact h⟩

/-! ## C7: de-duplication of manual decisions -/

theorem charListLe_refl : ∀ a : List Char, charListLe a a = true := by
  intro a
  induction a with
  | nil => rfl
  | cons c cs ih =>
    simp only [charListLe]
    rw [if_neg (by omega), if_neg (by omega)]
    exact ih

theorem keepLast_sub : ∀ l : List Candidate, ∀ c ∈ keepLastById l, c ∈ l := by
  intro l
  induction l with
  | nil => intro c hc; simp [keepLastById] at hc
  | cons d l ih =>
    intro c hc
    unfold keepLastById at hc
    split at hc
    · exact List.mem_cons_of_mem d (ih c hc)
    · rcases List.mem_cons.mp hc with h | h
      · subst h; exact List.mem_cons_self c l
      · exact List.mem_cons_of_mem d (ih c h)

theorem keepLast_countP (id : String) : ∀ l : List Candidate,
    (keepLastById l).countP (fun c => c.entry_id == id) =
      if l.any (fun c => c.entry_id == id) then 1 else 0 := by
  intro l
  induction l with
  | nil => simp [keepLastById]
  | cons d l ih =>
    unfold keepLastById
    by_cases hdup : l.any (fun x => x.entry_id == d.entry_id)
    · rw [if_pos hdup, ih]
      by_cases hid : d.entry_id = id
      · have hany : l.any (fun c => c.entry_id == id) = true := by
          rw [← hid]; exact hdup
        rw [hany]
        have : (d :: l).any (fun c => c.entry_id == id) = true := by
          simp [List.any_cons, hany]
        rw [this]
      · have : (d :: l).any (fun c => c.entry_id == id) =
            l.any (fun c => c.entry_id == id) := by
          simp [List.any_cons, beq_iff_eq, hid]
        rw [this]
    · rw [if_neg hdup, List.countP_cons, ih]
      by_cases hid : d.entry_id = id
      · have hanyl : l.any (fun c => c.entry_id == id) = false := by
          rw [← hid]; simpa using hdup
        have hanyc : (d :: l).any (fun c => c.entry_id == id) = true := by
          simp [List.any_cons, beq_iff_eq, hid]
        rw [hanyl, hanyc]
        simp [beq_iff_eq, hid]
      · have : (d :: l).any (fun c => c.entry_id == id) =
            l.any (fun c => c.entry_id == id) := by
          simp [List.any_cons, beq_iff_eq, hid]
        rw [this]
        simp [beq_iff_eq, hid]

/-- In a key-sorted candidate list, every surviving row is key-maximal within
its id group. -/
theorem keepLast_max : ∀ l : List Candidate,
    l.Pairwise (fun a b => strLe (candKey a) (candKey b) = true) →
    ∀ c ∈ keepLastById l, ∀ d ∈ l, d.entry_id = c.entry_id →
      strLe (candKey d) (candKey c) = true := by
  intro l
  induction l with
  | nil => intro _ c hc; simp [keepLastById] at hc
  | cons x l ih =>
    intro hp c hc d hd hid
    have hhead : ∀ y ∈ l, strLe (candKey x) (candKey y) = true :=
      (List.pairwise_cons.mp hp).1
    have htail := (List.pairwise_cons.mp hp).2
    unfold keepLastById at hc
    split at hc
    · rcases List.mem_cons.mp hd with hdx | hdl
      · subst hdx
        exact hhead c (keepLast_sub l c hc)
      · exact ih htail c hc d hdl hid
    · rename_i hnodup
      rcases List.mem_cons.mp hc with hcx | hcl
      · subst hcx
        rcases List.mem_cons.mp hd with hdx | hdl
        · subst hdx; exact charListLe_refl _
        · exfalso
          have hall : ∀ y ∈ l, ¬ y.entry_id = c.entry_id := by simpa using hnodup
          exact hall d hdl hid
      · rcases List.mem_cons.mp hd with hdx | hdl
        · exfalso
          have hcmem := keepLast_sub l c hcl
          have hall : ∀ y ∈ l, ¬ y.entry_id = x.entry_id := by simpa using hnodup
          subst hdx
          exact hall c hcmem hid.symm
        · exact ih htail c hcl d hdl hid

/-- Two sorted lists that are permutations of each other and have pairwise
distinct keys on their elements are equal. -/
theorem sorted_perm_eq_of_nodup_keys :
    ∀ l1 l2 : List Candidate, l1.Perm l2 →
      l1.Pairwise (fun a b => strLe (candKey a) (candKey b) = true) →
      l2.Pairwise (fun a b => strLe (candKey a) (candKey b) = true) →
      (l1.map candKey).Nodup → l1 = l2 := by
  intro l1
  induction l1 with
  | nil => intro l2 hp _ _ _; exact (hp.nil_eq).symm ▸ rfl
  | cons c t1 ih =>
    intro l2 hp hs1 hs2 hnd
    cases l2 with
    | nil => exact absurd hp.symm (by simp)
    | cons c2 t2 =>
      have hinj := List.inj_on_of_nodup_map hnd
      have hceq : c = c2 := by
        have hc2mem : c2 ∈ c :: t1 := hp.symm.subset (List.mem_cons_self c2 t2)
        have hcmem : c ∈ c2 :: t2 := hp.subset (List.mem_cons_self c t1)
        rcases List.mem_cons.mp hc2mem with h | h
        · exact h.symm
        rcases List.mem_cons.mp hcmem with h2 | h2
        · exact h2
        have hr1 : strLe (candKey c) (candKey c2) = true :=
          (List.pairwise_cons.mp hs1).1 c2 h
        have hr2 : strLe (candKey c2) (candKey c) = true :=
          (List.pairwise_cons.mp hs2).1 c h2
        have hkey : candKey c = candKey c2 :=
          string_data_inj (charListLe_antisymm _ _ hr1 hr2)
        exact hinj (List.mem_cons_self c t1) hc2mem hkey
      subst hceq
      have htperm : t1.Perm t2 := hp.cons_inv
      have ht := ih t2 htperm (List.pairwise_cons.mp hs1).2
        (List.pairwise_cons.mp hs2).2 (by simpa using hnd.of_cons)
      rw [ht]

/-- C7 counterexample.  Two decisions for the same entry id in files
`POS_MANUAL_BATCH_A.csv` and `POS_MANUAL_BATCH_A.csvx.csv` (the first file
name a proper prefix of the second, and strictly smaller in the (file, row)
order): the survivor of de-duplication is the decision of the *smaller*
(file, row) pair, because the concatenated sort key compares the `|`
separator (code point 124) against the next file-name character `x` (120) —
so the claim's "(batch file name, row index)-last wins" is false for such
file names. -/
theorem C7_counterexample :
    strLe "POS_MANUAL_BATCH_A.csv" "POS_MANUAL_BATCH_A.csvx.csv" = true ∧
    ("POS_MANUAL_BATCH_A.csv" : String) ≠ "POS_MANUAL_BATCH_A.csvx.csv" ∧
    (dedupCandidates
      [⟨"WB000001", "", "", "verb", "", "", "done", "POS_MANUAL_BATCH_A.csv", 1⟩,
       ⟨"WB000001", "", "", "noun", "", "", "done",
        "POS_MANUAL_BATCH_A.csvx.csv", 1⟩]).map (fun c => c.decision_pos) =
      ["verb"] ∧
    (dedupCandidates
      [⟨"WB000001", "", "", "noun", "", "", "done",
        "POS_MANUAL_BATCH_A.csvx.csv", 1⟩,
       ⟨"WB000001", "", "", "verb", "", "", "done",
        "POS_MANUAL_BATCH_A.csv", 1⟩]).map (fun c => c.decision_pos) =
      ["verb"] := by
  decide

/-- C7 amended.  De-duplication keeps, for every entry id present, exactly one
decision: the one maximal in the code's concatenated sort key
`batch_file + "|" + zfill6(row_index)` — and the outcome is independent of
the input order of the candidate rows.  (The concatenated key agrees with the
(file name, row index) lexicographic order whenever no batch file name is a
proper prefix of another and row indices stay below 10⁶.) -/
theorem C7_dedup_last_write_wins (cs1 cs2 : List Candidate)
    (hperm : cs1.Perm cs2) (hnd : (cs1.map candKey).Nodup) :
    dedupCandidates cs1 = dedupCandidates cs2 ∧
    (∀ id : String, (dedupCandidates cs1).countP (fun c => c.entry_id == id) =
      if cs1.any (fun c => c.entry_id == id) then 1 else 0) ∧
    (∀ c ∈ dedupCandidates cs1, c ∈ cs1 ∧
      ∀ d ∈ cs1, d.entry_id = c.entry_id → d ≠ c →
        (strLe (candKey d) (candKey c) = true ∧ candKey d ≠ candKey c)) := by
  haveI : IsTotal Candidate (fun a b => strLe (candKey a) (candKey b) = true) :=
    ⟨fun a b => charListLe_total _ _⟩
  haveI : IsTrans Candidate (fun a b => strLe (candKey a) (candKey b) = true) :=
    ⟨fun a b c => charListLe_trans _ _ _⟩
  have hsort1 : (sortCands cs1).Pairwise
      (fun a b => strLe (candKey a) (candKey b) = true) :=
    List.sorted_insertionSort _ cs1
  have hsort2 : (sortCands cs2).Pairwise
      (fun a b => strLe (candKey a) (candKey b) = true) :=
    List.sorted_insertionSort _ cs2
  have hperm1 : (sortCands cs1).Perm cs1 := List.perm_insertionSort _ cs1
  have hperm2 : (sortCands cs2).Perm cs2 := List.perm_insertionSort _ cs2
  have hsorteq : sortCands cs1 = sortCands cs2 := by
    apply sorted_perm_eq_of_nodup_keys _ _ ((hperm1.trans hperm).trans hperm2.symm)
      hsort1 hsort2
    exact (hperm1.map candKey).nodup_iff.mpr hnd
  have hinj := List.inj_on_of_nodup_map hnd
  refine ⟨by unfold dedupCandidates; rw [hsorteq], fun id => ?_, fun c hc => ?_⟩
  · unfold dedupCandidates
    rw [keepLast_countP id (sortCands cs1)]
    have hany : (sortCands cs1).any (fun c => c.entry_id == id) =
        cs1.any (fun c => c.entry_id == id) := by
      apply Bool.eq_iff_iff.mpr
      simp only [List.any_eq_true]
      exact ⟨fun ⟨x, hx, hp⟩ => ⟨x, hperm1.subset hx, hp⟩,
             fun ⟨x, hx, hp⟩ => ⟨x, hperm1.symm.subset hx, hp⟩⟩
    rw [hany]
  · have hcmem : c ∈ cs1 :=
      hperm1.subset (keepLast_sub (sortCands cs1) c hc)
    refine ⟨hcmem, fun d hd hid hne => ?_⟩
    have hdmem : d ∈ sortCands cs1 := hperm1.symm.subset hd
    refine ⟨keepLast_max (sortCands cs1) hsort1 c hc d hdmem hid, fun hkeq => ?_⟩
    exact hne (hinj hd hcmem hkeq)

/-! ## C4: re-application of the same manual batch -/

/-- Every whitespace character of a cleaned text is an ASCII space. -/
theorem cleanL_space {l : List Char} :
    ∀ c ∈ cleanL l, isPySpace c = true → c = ' ' := by
  intro c hc hsp
  unfold cleanL at hc
  have h1 := mem_of_mem_stripEnds hc
  rcases runRep_mem _ _ _ h1 with h2 | h2
  · exact h2
  · rw [h2.2] at hsp
    exact absurd hsp (by simp)

/-- No two adjacent whitespace characters in a cleaned text. -/
theorem cleanL_chain {l : List Char} :
    (cleanL l).Chain' (fun a c => ¬(isPySpace a = true ∧ isPySpace c = true)) := by
  unfold cleanL
  exact chain_stripEnds (runRep_chain _ false)

/-- `cleanL` is idempotent. -/
theorem cleanL_idem (l : List Char) : cleanL (cleanL l) = cleanL l := by
  apply cleanL_id_of
  · exact cleanL_no_bom
  · intro c hc
    have hne : ¬(c = ideoSpace ∨ c = Char.ofNat 13 ∨ c = Char.ofNat 10) := by
      rintro (h | h | h) <;> subst h <;>
        exact absurd (cleanL_space _ hc (by decide)) (by decide)
    simp only [replNl, if_neg hne]
  · exact cleanL_space
  · exact cleanL_chain
  · intro c h
    unfold cleanL at h
    exact stripEnds_head_not h
  · intro c h
    unfold cleanL at h
    exact stripEnds_last_not h

/-- `clean_text` is idempotent. -/
theorem clean_text_idem (s : String) :
    clean_text (clean_text s) = clean_text s := by
  unfold clean_text
  exact congrArg String.mk (cleanL_idem s.data)

theorem manualMutate_key (row : Entry) (np : String) (e : Entry) :
    entryKey (manualMutate row np e) = entryKey e := rfl

theorem manualMutate_id (row : Entry) (np : String) (e : Entry) :
    (manualMutate row np e).entry_id = e.entry_id := rfl

theorem updateFirst_map {α : Type} (g : Entry → α) (p : Entry → Bool)
    (f : Entry → Entry) (hg : ∀ e, g (f e) = g e) :
    ∀ l : List Entry, (updateFirst p f l).map g = l.map g := by
  intro l
  induction l with
  | nil => rfl
  | cons x l ih =>
    unfold updateFirst
    split
    · simp [List.map_cons, hg]
    · simp only [List.map_cons, ih]

/-- One application step leaves the key view of the wordbank unchanged. -/
theorem applyStepWb_map_key (snap cur : List Entry) (c : Candidate) :
    (applyStepWb snap cur c).map entryKey = cur.map entryKey := by
  unfold applyStepWb
  rcases hres : resolveDecision snap c with r | rid
  · rfl
  · dsimp only
    rcases hfind : wbFind snap rid with _ | row
    · rfl
    · dsimp only
      by_cases hcond : clean_text row.pos ≠ clean_text c.decision_pos
      · rw [if_pos hcond]
        exact updateFirst_map entryKey _ _ (fun e => manualMutate_key row _ e) cur
      · rw [if_neg hcond]

/-- The full application fold leaves the key view unchanged. -/
theorem applyWb_map_key (snap : List Entry) :
    ∀ (cs : List Candidate) (cur : List Entry),
      (applyWb snap cs cur).map entryKey = cur.map entryKey := by
  intro cs
  induction cs with
  | nil => intro cur; rfl
  | cons c cs ih =>
    intro cur
    rw [show applyWb snap (c :: cs) cur
        = applyWb snap cs (applyStepWb snap cur c) from rfl,
      ih (applyStepWb snap cur c), applyStepWb_map_key]

theorem map_id_of_map_key {l1 l2 : List Entry}
    (h : l1.map entryKey = l2.map entryKey) :
    l1.map (fun e => e.entry_id) = l2.map (fun e => e.entry_id) := by
  have h2 := congrArg (List.map (fun k : String × String × String => k.1)) h
  simpa [List.map_map, Function.comp] using h2

/-- Decision resolution only reads the key view of the snapshot. -/
theorem resolveDecision_congr {wb1 wb2 : List Entry}
    (h : wb1.map entryKey = wb2.map entryKey) (c : Candidate) :
    resolveDecision wb1 c = resolveDecision wb2 c := by
  unfold resolveDecision
  rw [h]

theorem wbFind_cons_pos {x : Entry} {l : List Entry} {rid : String}
    (hx : (x.entry_id == rid) = true) :
    (x :: l).find? (fun e => e.entry_id == rid) = some x := by
  rw [List.find?_cons_of_pos]
  exact hx

theorem wbFind_cons_neg {x : Entry} {l : List Entry} {rid : String}
    (hx : ¬(x.entry_id == rid) = true) :
    (x :: l).find? (fun e => e.entry_id == rid) =
      l.find? (fun e => e.entry_id == rid) := by
  rw [List.find?_cons_of_neg]
  simpa using hx

theorem wbFind_isSome_congr :
    ∀ {l1 l2 : List Entry},
      l1.map (fun e => e.entry_id) = l2.map (fun e => e.entry_id) →
      ∀ rid, (wbFind l1 rid).isSome = (wbFind l2 rid).isSome := by
  intro l1
  induction l1 with
  | nil =>
    intro l2 h rid
    cases l2 with
    | nil => rfl
    | cons y l2 => simp at h
  | cons x l ih =>
    intro l2 h rid
    cases l2 with
    | nil => simp at h
    | cons y l2 =>
      simp only [List.map_cons, List.cons.injEq] at h
      by_cases hx : (x.entry_id == rid) = true
      · have hy : (y.entry_id == rid) = true := by rw [← h.1]; exact hx
        unfold wbFind
        rw [wbFind_cons_pos hx, wbFind_cons_pos hy]
        rfl
      · have hy : ¬(y.entry_id == rid) = true := by rw [← h.1]; exact hx
        unfold wbFind
        rw [wbFind_cons_neg hx, wbFind_cons_neg hy]
        exact ih h.2 rid

theorem resolvedTarget_congr {wb1 wb2 : List Entry}
    (hk : wb1.map entryKey = wb2.map entryKey) (c : Candidate) :
    resolvedTarget wb1 c = resolvedTarget wb2 c := by
  unfold resolvedTarget
  rw [resolveDecision_congr hk c]
  rcases resolveDecision wb2 c with r | rid
  · rfl
  · dsimp only
    rw [wbFind_isSome_congr (map_id_of_map_key hk) rid]

/-- The POS column of the id-indexed view of a wordbank. -/
def posOf (l : List Entry) (eid : String) : Option String :=
  (wbFind l eid).map (fun e => e.pos)

theorem wbFind_updateFirst_self (f : Entry → Entry)
    (hf : ∀ e, (f e).entry_id = e.entry_id) (rid : String) :
    ∀ l : List Entry,
      wbFind (updateFirst (fun e => e.entry_id == rid) f l) rid =
        (wbFind l rid).map f := by
  intro l
  induction l with
  | nil => rfl
  | cons x l ih =>
    unfold updateFirst
    by_cases hx : (x.entry_id == rid) = true
    · rw [if_pos hx]
      unfold wbFind
      rw [wbFind_cons_pos (show ((f x).entry_id == rid) = true by
          rw [hf]; exact hx),
        wbFind_cons_pos hx]
      rfl
    · rw [if_neg hx]
      unfold wbFind
      rw [wbFind_cons_neg hx, wbFind_cons_neg hx]
      exact ih

theorem wbFind_updateFirst_other (f : Entry → Entry)
    (hf : ∀ e, (f e).entry_id = e.entry_id) (rid rid2 : String)
    (hne : rid ≠ rid2) :
    ∀ l : List Entry,
      wbFind (updateFirst (fun e => e.entry_id == rid) f l) rid2 =
        wbFind l rid2 := by
  intro l
  induction l with
  | nil => rfl
  | cons x l ih =>
    unfold updateFirst
    by_cases hx : (x.entry_id == rid) = true
    · rw [if_pos hx]
      have hxid : x.entry_id = rid := by simpa using hx
      have hx2 : ¬(x.entry_id == rid2) = true := by
        simp only [beq_iff_eq, hxid]
        exact hne
      have hfx2 : ¬((f x).entry_id == rid2) = true := by
        simp only [beq_iff_eq, hf, hxid]
        exact hne
      unfold wbFind
      rw [wbFind_cons_neg hfx2, wbFind_cons_neg hx2]
    · rw [if_neg hx]
      by_cases hx2 : (x.entry_id == rid2) = true
      · unfold wbFind
        rw [wbFind_cons_pos hx2, wbFind_cons_pos hx2]
      · unfold wbFind
        rw [wbFind_cons_neg hx2, wbFind_cons_neg hx2]
        exact ih

theorem posOf_isSome_find (l : List Entry) (t : String) :
    (wbFind l t).isSome = (posOf l t).isSome := by
  unfold posOf
  rcases wbFind l t with _ | e <;> rfl

/-- A step whose decision does not resolve to `t` does not touch the POS of
`t`. -/
theorem posOf_step_other (snap cur : List Entry) (c : Candidate) (t : String)
    (h : resolvedTarget snap c ≠ some t) :
    posOf (applyStepWb snap cur c) t = posOf cur t := by
  unfold applyStepWb
  rcases hres : resolveDecision snap c with r | rid
  · rfl
  · dsimp only
    rcases hfind : wbFind snap rid with _ | row
    · rfl
    · dsimp only
      by_cases hcond : clean_text row.pos ≠ clean_text c.decision_pos
      · rw [if_pos hcond]
        have hres2 : resolvedTarget snap c = some rid := by
          unfold resolvedTarget
          rw [hres]
          dsimp only
          rw [hfind]
          rfl
        have hrid : rid ≠ t := fun he => h (he ▸ hres2)
        unfold posOf
        rw [wbFind_updateFirst_other _ (fun e => manualMutate_id row _ e)
          rid t hrid]
      · rw [if_neg hcond]

/-- A step whose decision resolves to `t` rewrites the POS of `t` to the
cleaned decision POS exactly when the snapshot disagreed with it. -/
theorem posOf_step_target (snap cur : List Entry) (c : Candidate)
    (rid : String) (row : Entry)
    (hres : resolveDecision snap c = Sum.inr rid)
    (hfind : wbFind snap rid = some row)
    (hcur : (wbFind cur rid).isSome = true) :
    posOf (applyStepWb snap cur c) rid =
      (if clean_text row.pos ≠ clean_text c.decision_pos
       then some (clean_text c.decision_pos) else posOf cur rid) := by
  unfold applyStepWb
  rw [hres]
  dsimp only
  rw [hfind]
  dsimp only
  by_cases hcond : clean_text row.pos ≠ clean_text c.decision_pos
  · rw [if_pos hcond, if_pos hcond]
    unfold posOf
    rw [wbFind_updateFirst_self _ (fun e => manualMutate_id row _ e) rid cur]
    rcases Option.isSome_iff_exists.mp hcur with ⟨e, he⟩
    rw [he]
    rfl
  · rw [if_neg hcond, if_neg hcond]

theorem applyWb_posOf_none (snap : List Entry) (t : String) :
    ∀ (cs : List Candidate) (cur : List Entry),
      (∀ c ∈ cs, resolvedTarget snap c ≠ some t) →
      posOf (applyWb snap cs cur) t = posOf cur t := by
  intro cs
  induction cs with
  | nil => intro cur _; rfl
  | cons c cs ih =>
    intro cur h
    rw [show applyWb snap (c :: cs) cur
        = applyWb snap cs (applyStepWb snap cur c) from rfl,
      ih (applyStepWb snap cur c) (fun d hd => h d (List.mem_cons_of_mem c hd)),
      posOf_step_other snap cur c t (h c (List.mem_cons_self c cs))]

/-- Under pairwise-distinct resolved targets, the POS of the target of a
decision after the whole fold is the decision's cleaned POS if the snapshot
disagreed with it, and is untouched otherwise. -/
theorem applyWb_posOf_target (snap : List Entry) (t : String) (row : Entry)
    (hfind : wbFind snap t = some row) :
    ∀ (cs : List Candidate) (cur : List Entry) (c : Candidate),
      (cs.filterMap (resolvedTarget snap)).Nodup →
      c ∈ cs → resolveDecision snap c = Sum.inr t →
      (wbFind cur t).isSome = true →
      posOf (applyWb snap cs cur) t =
        (if clean_text row.pos ≠ clean_text c.decision_pos
         then some (clean_text c.decision_pos) else posOf cur t) := by
  intro cs
  induction cs with
  | nil => intro cur c _ hc; simp at hc
  | cons d cs ih =>
    intro cur c hnd hc hres hcur
    have htgtc : resolvedTarget snap c = some t := by
      unfold resolvedTarget
      rw [hres]
      dsimp only
      rw [hfind]
      rfl
    rcases List.mem_cons.mp hc with hceq | hctail
    · subst hceq
      have hfm : (c :: cs).filterMap (resolvedTarget snap)
          = t :: cs.filterMap (resolvedTarget snap) := by
        simp only [List.filterMap_cons, htgtc]
      rw [hfm] at hnd
      have hnot : ∀ e ∈ cs, resolvedTarget snap e ≠ some t := by
        intro e he hcon
        exact (List.nodup_cons.mp hnd).1 (List.mem_filterMap.mpr ⟨e, he, hcon⟩)
      rw [show applyWb snap (c :: cs) cur
          = applyWb snap cs (applyStepWb snap cur c) from rfl,
        applyWb_posOf_none snap t cs _ hnot,
        posOf_step_target snap cur c t row hres hfind hcur]
    · have hdnot : resolvedTarget snap d ≠ some t := by
        intro hcon
        have hfm : (d :: cs).filterMap (resolvedTarget snap)
            = t :: cs.filterMap (resolvedTarget snap) := by
          simp only [List.filterMap_cons, hcon]
        rw [hfm] at hnd
        exact (List.nodup_cons.mp hnd).1
          (List.mem_filterMap.mpr ⟨c, hctail, htgtc⟩)
      have hndtail : (cs.filterMap (resolvedTarget snap)).Nodup := by
        simp only [List.filterMap_cons] at hnd
        rcases hfd : resolvedTarget snap d with _ | td
        · rw [hfd] at hnd
          exact hnd
        · rw [hfd] at hnd
          exact (List.nodup_cons.mp hnd).2
      have hstep : posOf (applyStepWb snap cur d) t = posOf cur t :=
        posOf_step_other snap cur d t hdnot
      have hcur2 : (wbFind (applyStepWb snap cur d) t).isSome = true := by
        rw [posOf_isSome_find, hstep, ← posOf_isSome_find]
        exact hcur
      rw [show applyWb snap (d :: cs) cur
          = applyWb snap cs (applyStepWb snap cur d) from rfl,
        ih (applyStepWb snap cur d) c hndtail hctail hres hcur2, hstep]

theorem applyWb_id_of_steps_id (snap : List Entry) :
    ∀ (cs : List Candidate) (cur : List Entry),
      (∀ c ∈ cs, ∀ x : List Entry, applyStepWb snap x c = x) →
      applyWb snap cs cur = cur := by
  intro cs
  induction cs with
  | nil => intro cur _; rfl
  | cons c cs ih =>
    intro cur h
    rw [show applyWb snap (c :: cs) cur
        = applyWb snap cs (applyStepWb snap cur c) from rfl,
      h c (List.mem_cons_self c cs) cur]
    exact ih cur (fun d hd => h d (List.mem_cons_of_mem c hd))

/-- After one application of a batch with pairwise-distinct resolved targets,
every decision of that batch agrees with the updated wordbank's POS at its
target. -/
theorem second_pass_no_change (wb : List Entry)
    (files : List (String × List BatchRow))
    (hnd : ((dedupCandidates (candidatesOf files)).filterMap
      (resolvedTarget wb)).Nodup) :
    ∀ c ∈ dedupCandidates (candidatesOf files), ∀ (rid : String) (row2 : Entry),
      resolveDecision (applyWb wb (dedupCandidates (candidatesOf files)) wb) c
        = Sum.inr rid →
      wbFind (applyWb wb (dedupCandidates (candidatesOf files)) wb) rid
        = some row2 →
      clean_text row2.pos = clean_text c.decision_pos := by
  intro c hc rid row2 hres1 hfind1
  have hkey : (applyWb wb (dedupCandidates (candidatesOf files)) wb).map entryKey
      = wb.map entryKey := applyWb_map_key wb _ wb
  have hres : resolveDecision wb c = Sum.inr rid := by
    rw [← resolveDecision_congr hkey c]
    exact hres1
  have hsome1 : (wbFind (applyWb wb (dedupCandidates (candidatesOf files)) wb)
      rid).isSome = true := by
    rw [hfind1]
    rfl
  have hsome0 : (wbFind wb rid).isSome = true := by
    rw [← wbFind_isSome_congr (map_id_of_map_key hkey) rid]
    exact hsome1
  rcases Option.isSome_iff_exists.mp hsome0 with ⟨row1, hfind0⟩
  have hpos1 := applyWb_posOf_target wb rid row1 hfind0
    (dedupCandidates (candidatesOf files)) wb c hnd hc hres hsome0
  have hpos2 : posOf (applyWb wb (dedupCandidates (candidatesOf files)) wb) rid
      = some row2.pos := by
    unfold posOf
    rw [hfind1]
    rfl
  by_cases hcond : clean_text row1.pos ≠ clean_text c.decision_pos
  · rw [if_pos hcond] at hpos1
    rw [hpos1] at hpos2
    have : clean_text c.decision_pos = row2.pos := Option.some.inj hpos2
    rw [← this, clean_text_idem]
  · rw [if_neg hcond] at hpos1
    rw [not_ne_iff] at hcond
    have hposwb : posOf wb rid = some row1.pos := by
      unfold posOf
      rw [hfind0]
      rfl
    rw [hposwb] at hpos1
    rw [hpos1] at hpos2
    have : row1.pos = row2.pos := Option.some.inj hpos2
    rw [← this]
    exact hcond

/-- C4 counterexample.  A valid batch of two decisions with distinct entry
ids, the second of which resolves by headword to the same wordbank entry as
the first: re-applying the already-applied batch still reports an applied row
with `changed = True` and mutates the wordbank again (the second pass swaps
the entry between the two decisions' POS values), so application of a fully
applied batch is not idempotent in general. -/
theorem C4_counterexample :
    (candidatesOf [("POS_MANUAL_BATCH_001.csv",
      [⟨"WB000001", "cat", "m", "verb", "", "rev", "done"⟩,
       ⟨"WB999999", "cat", "m", "noun", "", "rev", "done"⟩])]).length = 2 ∧
    ((apply_manual_batch_decisions
      (apply_manual_batch_decisions
        [⟨"WB000001", "cat", "cat", "m", "adjective", "形容詞", "",
          "adjective:1", 74, 0, false, "adjective_suffix", 3, 1, 3,
          "S03_ADJECTIVE_C", "形容詞 / C"⟩]
        [("POS_MANUAL_BATCH_001.csv",
          [⟨"WB000001", "cat", "m", "verb", "", "rev", "done"⟩,
           ⟨"WB999999", "cat", "m", "noun", "", "rev", "done"⟩])]).2.1
      [("POS_MANUAL_BATCH_001.csv",
        [⟨"WB000001", "cat", "m", "verb", "", "rev", "done"⟩,
         ⟨"WB999999", "cat", "m", "noun", "", "rev", "done"⟩])]).1.any
      (fun r => r.changed)) = true ∧
    (apply_manual_batch_decisions
      (apply_manual_batch_decisions
        [⟨"WB000001", "cat", "cat", "m", "adjective", "形容詞", "",
          "adjective:1", 74, 0, false, "adjective_suffix", 3, 1, 3,
          "S03_ADJECTIVE_C", "形容詞 / C"⟩]
        [("POS_MANUAL_BATCH_001.csv",
          [⟨"WB000001", "cat", "m", "verb", "", "rev", "done"⟩,
           ⟨"WB999999", "cat", "m", "noun", "", "rev", "done"⟩])]).2.1
      [("POS_MANUAL_BATCH_001.csv",
        [⟨"WB000001", "cat", "m", "verb", "", "rev", "done"⟩,
         ⟨"WB999999", "cat", "m", "noun", "", "rev", "done"⟩])]).2.1 ≠
    (apply_manual_batch_decisions
      [⟨"WB000001", "cat", "cat", "m", "adjective", "形容詞", "",
        "adjective:1", 74, 0, false, "adjective_suffix", 3, 1, 3,
        "S03_ADJECTIVE_C", "形容詞 / C"⟩]
      [("POS_MANUAL_BATCH_001.csv",
        [⟨"WB000001", "cat", "m", "verb", "", "rev", "done"⟩,
         ⟨"WB999999", "cat", "m", "noun", "", "rev", "done"⟩])]).2.1 := by
  decide

/-- C4 amended.  When no two de-duplicated decisions of the batch resolve to
the same wordbank entry (in particular when each decision resolves by its own
entry id), applying the batch a second time to the already-updated wordbank
leaves the wordbank unchanged and reports `changed = False` on every applied
row.  Without that side condition, aliased decisions (distinct decision ids
resolving to one entry) make re-application mutate the wordbank again. -/
theorem C4_reapply_idempotent (wb : List Entry)
    (files : List (String × List BatchRow))
    (hnd : ((dedupCandidates (candidatesOf files)).filterMap
      (resolvedTarget wb)).Nodup) :
    (apply_manual_batch_decisions
      (apply_manual_batch_decisions wb files).2.1 files).2.1 =
      (apply_manual_batch_decisions wb files).2.1 ∧
    (∀ r ∈ (apply_manual_batch_decisions
      (apply_manual_batch_decisions wb files).2.1 files).1,
      r.changed = false) := by
  have hcore := second_pass_no_change wb files hnd
  constructor
  · show applyWb (applyWb wb (dedupCandidates (candidatesOf files)) wb)
      (dedupCandidates (candidatesOf files))
      (applyWb wb (dedupCandidates (candidatesOf files)) wb)
      = applyWb wb (dedupCandidates (candidatesOf files)) wb
    apply applyWb_id_of_steps_id
    intro c hc x
    unfold applyStepWb
    rcases hres1 : resolveDecision
        (applyWb wb (dedupCandidates (candidatesOf files)) wb) c with r | rid
    · rfl
    · dsimp only
      rcases hfind1 : wbFind
          (applyWb wb (dedupCandidates (candidatesOf files)) wb) rid
          with _ | row2
      · rfl
      · dsimp only
        rw [if_neg (not_ne_iff.mpr (hcore c hc rid row2 hres1 hfind1))]
  · show ∀ r ∈ (dedupCandidates (candidatesOf files)).filterMap
      (appliedRowFor (applyWb wb (dedupCandidates (candidatesOf files)) wb)),
      r.changed = false
    intro r hr
    rcases List.mem_filterMap.mp hr with ⟨c, hc, happ⟩
    unfold appliedRowFor at happ
    rcases hres1 : resolveDecision
        (applyWb wb (dedupCandidates (candidatesOf files)) wb) c with s | rid
    · rw [hres1] at happ
      simp at happ
    · rw [hres1] at happ
      dsimp only at happ
      rcases hfind1 : wbFind
          (applyWb wb (dedupCandidates (candidatesOf files)) wb) rid
          with _ | row2
      · rw [hfind1] at happ
        simp at happ
      · rw [hfind1] at happ
        dsimp only at happ
        have hrec := Option.some.inj happ
        rw [← hrec]
        simp only [decide_eq_false_iff_not, not_ne_iff]
        exact hcore c hc rid row2 hres1 hfind1

/-- C4 witness: a single decision on a one-entry wordbank; re-application is
the identity and the applied row reports no change. -/
theorem C4_witness :
    (((dedupCandidates (candidatesOf [("POS_MANUAL_BATCH_001.csv",
        [⟨"WB000001", "cat", "m", "verb", "", "rev", "done"⟩])])).filterMap
      (resolvedTarget
        [⟨"WB000001", "cat", "cat", "m", "adjective", "形容詞", "",
          "adjective:1", 74, 0, false, "adjective_suffix", 3, 1, 3,
          "S03_ADJECTIVE_C", "形容詞 / C"⟩])).Nodup) ∧
    (apply_manual_batch_decisions
      (apply_manual_batch_decisions
        [⟨"WB000001", "cat", "cat", "m", "adjective", "形容詞", "",
          "adjective:1", 74, 0, false, "adjective_suffix", 3, 1, 3,
          "S03_ADJECTIVE_C", "形容詞 / C"⟩]
        [("POS_MANUAL_BATCH_001.csv",
          [⟨"WB000001", "cat", "m", "verb", "", "rev", "done"⟩])]).2.1
      [("POS_MANUAL_BATCH_001.csv",
        [⟨"WB000001", "cat", "m", "verb", "", "rev", "done"⟩])]).2.1 =
    (apply_manual_batch_decisions
      [⟨"WB000001", "cat", "cat", "m", "adjective", "形容詞", "",
        "adjective:1", 74, 0, false, "adjective_suffix", 3, 1, 3,
        "S03_ADJECTIVE_C", "形容詞 / C"⟩]
      [("POS_MANUAL_BATCH_001.csv",
        [⟨"WB000001", "cat", "m", "verb", "", "rev", "done"⟩])]).2.1 :=
  ⟨by decide, (C4_reapply_idempotent _ _ (by decide)).1⟩

/-! ## C5: POS changes record the prior primary as secondary -/

/-- Fixture entry for the C5 scenarios: an adjective wordbank row. -/
def wbX : List Entry :=
  [⟨"WB000001", "cat", "cat", "m", "adjective", "形容詞", "", "adjective:1",
    74, 0, false, "adjective_suffix", 3, 1, 3, "S03_ADJECTIVE_C", "形容詞 / C"⟩]

/-- Default entry used with `headD` in the C5 scenarios. -/
def dX : Entry :=
  ⟨"", "", "", "", "", "", "", "", 0, 0, false, "", 0, 0, 0, "", ""⟩

/-- Aliased two-decision batch: the second decision carries an unknown id but
re-resolves by headword to the same entry as the first. -/
def fsX : List (String × List BatchRow) :=
  [("POS_MANUAL_BATCH_001.csv",
    [⟨"WB000001", "cat", "m", "verb", "", "rev", "done"⟩,
     ⟨"WB999999", "cat", "m", "noun", "", "rev", "done"⟩])]

/-- The two validated decisions of `fsX`, in de-duplicated order. -/
def cX1 : Candidate :=
  ⟨"WB000001", "cat", "m", "verb", "", "rev", "done",
   "POS_MANUAL_BATCH_001.csv", 1⟩

def cX2 : Candidate :=
  ⟨"WB999999", "cat", "m", "noun", "", "rev", "done",
   "POS_MANUAL_BATCH_001.csv", 2⟩

/-- Single-decision confirmation, quick-win and manual fixtures. -/
def csW : List ConfirmRow := [⟨"WB000001", "verb", "marker", 1, true⟩]

def qsW : List QuickwinRow := [⟨"WB000001", "noun", "reason"⟩]

def fsW : List (String × List BatchRow) :=
  [("POS_MANUAL_BATCH_001.csv",
    [⟨"WB000001", "cat", "m", "verb", "", "rev", "done"⟩])]

/-- C5 counterexample.  In the manual batch stage the secondary POS is read
from the pre-loop snapshot, not from the evolving wordbank: with two aliased
decisions on one entry, after the second change (verb → noun) the entry's
secondary is `adjective` (the snapshot POS), not `verb` (the primary it had
immediately before that change). -/
theorem C5_counterexample :
    dedupCandidates (candidatesOf fsX) = [cX1, cX2] ∧
    (apply_manual_batch_decisions wbX fsX).2.1
      = applyStepWb wbX (applyStepWb wbX wbX cX1) cX2 ∧
    posOf (applyStepWb wbX wbX cX1) "WB000001" = some "verb" ∧
    posOf (apply_manual_batch_decisions wbX fsX).2.1 "WB000001" = some "noun" ∧
    (wbFind (apply_manual_batch_decisions wbX fsX).2.1 "WB000001").map
      (fun e => e.pos_secondary) = some "adjective" ∧
    ("adjective" : String) ≠ "verb" := by
  decide

theorem updateFirst_sec_inv (rid : String) (row : Entry) (np : String) :
    ∀ (wbl curl : List Entry),
      curl.map (fun e => e.entry_id) = wbl.map (fun e => e.entry_id) →
      wbl.find? (fun e => e.entry_id == rid) = some row →
      (∀ (i : Nat) (e1 e2 : Entry), wbl[i]? = some e1 → curl[i]? = some e2 →
        (e2 = e1 ∨ e2.pos_secondary = clean_text e1.pos)) →
      ∀ (i : Nat) (e1 e2 : Entry), wbl[i]? = some e1 →
        (updateFirst (fun e => e.entry_id == rid)
          (manualMutate row np) curl)[i]? = some e2 →
        (e2 = e1 ∨ e2.pos_secondary = clean_text e1.pos) := by
  intro wbl
  induction wbl with
  | nil =>
    intro curl hm hf hinv i e1 e2 h1 h2
    simp at h1
  | cons w wt ih =>
    intro curl hm hf hinv i e1 e2 h1 h2
    cases curl with
    | nil => simp at hm
    | cons c ct =>
      simp only [List.map_cons, List.cons.injEq] at hm
      by_cases hc : (c.entry_id == rid) = true
      · have hw : (w.entry_id == rid) = true := by rw [← hm.1]; exact hc
        have hfw : (w :: wt).find? (fun e => e.entry_id == rid) = some w :=
          wbFind_cons_pos hw
        have hroww : row = w := Option.some.inj (hf.symm.trans hfw)
        have hupd : updateFirst (fun e => e.entry_id == rid)
            (manualMutate row np) (c :: ct)
            = manualMutate row np c :: ct := by
          unfold updateFirst
          rw [if_pos hc]
        rw [hupd] at h2
        cases i with
        | zero =>
          right
          rw [List.getElem?_cons_zero] at h1 h2
          have he1 : w = e1 := Option.some.inj h1
          have he2 : manualMutate row np c = e2 := Option.some.inj h2
          rw [← he2]
          show clean_text row.pos = clean_text e1.pos
          rw [hroww, he1]
        | succ j =>
          rw [List.getElem?_cons_succ] at h2
          exact hinv (j + 1) e1 e2 h1
            (by rw [List.getElem?_cons_succ]; exact h2)
      · have hw : ¬(w.entry_id == rid) = true := by rw [← hm.1]; exact hc
        rw [wbFind_cons_neg hw] at hf
        have hupd : updateFirst (fun e => e.entry_id == rid)
            (manualMutate row np) (c :: ct)
            = c :: updateFirst (fun e => e.entry_id == rid)
                (manualMutate row np) ct := by
          simp only [updateFirst]
          rw [if_neg hc]
        rw [hupd] at h2
        cases i with
        | zero =>
          rw [List.getElem?_cons_zero] at h2
          exact hinv 0 e1 e2 h1 (by rw [List.getElem?_cons_zero]; exact h2)
        | succ j =>
          rw [List.getElem?_cons_succ] at h1 h2
          exact ih ct hm.2 hf
            (fun i' e1' e2' ha hb => hinv (i' + 1) e1' e2'
              (by rw [List.getElem?_cons_succ]; exact ha)
              (by rw [List.getElem?_cons_succ]; exact hb))
            j e1 e2 h1 h2

theorem applyStepWb_sec_inv (wb : List Entry) (c : Candidate)
    (curl : List Entry)
    (hm : curl.map (fun e => e.entry_id) = wb.map (fun e => e.entry_id))
    (hinv : ∀ (i : Nat) (e1 e2 : Entry), wb[i]? = some e1 → curl[i]? = some e2 →
      (e2 = e1 ∨ e2.pos_secondary = clean_text e1.pos)) :
    ∀ (i : Nat) (e1 e2 : Entry), wb[i]? = some e1 →
      (applyStepWb wb curl c)[i]? = some e2 →
      (e2 = e1 ∨ e2.pos_secondary = clean_text e1.pos) := by
  intro i e1 e2 h1 h2
  unfold applyStepWb at h2
  rcases hres : resolveDecision wb c with r | rid
  · rw [hres] at h2
    exact hinv i e1 e2 h1 h2
  · rw [hres] at h2
    dsimp only at h2
    rcases hfind : wbFind wb rid with _ | row
    · rw [hfind] at h2
      exact hinv i e1 e2 h1 h2
    · rw [hfind] at h2
      dsimp only at h2
      by_cases hcond : clean_text row.pos ≠ clean_text c.decision_pos
      · rw [if_pos hcond] at h2
        exact updateFirst_sec_inv rid row (clean_text c.decision_pos)
          (wb) curl hm hfind hinv i e1 e2 h1 h2
      · rw [if_neg hcond] at h2
        exact hinv i e1 e2 h1 h2

theorem applyWb_sec_inv (wb : List Entry) :
    ∀ (cs : List Candidate) (curl : List Entry),
      curl.map (fun e => e.entry_id) = wb.map (fun e => e.entry_id) →
      (∀ (i : Nat) (e1 e2 : Entry), wb[i]? = some e1 → curl[i]? = some e2 →
        (e2 = e1 ∨ e2.pos_secondary = clean_text e1.pos)) →
      ∀ (i : Nat) (e1 e2 : Entry), wb[i]? = some e1 →
        (applyWb wb cs curl)[i]? = some e2 →
        (e2 = e1 ∨ e2.pos_secondary = clean_text e1.pos) := by
  intro cs
  induction cs with
  | nil => intro curl _ hinv i e1 e2 h1 h2; exact hinv i e1 e2 h1 h2
  | cons c cs ih =>
    intro curl hm hinv i e1 e2 h1 h2
    rw [show applyWb wb (c :: cs) curl
        = applyWb wb cs (applyStepWb wb curl c) from rfl] at h2
    exact ih (applyStepWb wb curl c)
      ((map_id_of_map_key (applyStepWb_map_key wb curl c)).trans hm)
      (applyStepWb_sec_inv wb c curl hm hinv) i e1 e2 h1 h2

/-- C5 amended.  In each of the three POS-mutating stages, an entry whose
primary POS differs from its pre-stage value has its secondary POS equal to
the *cleaned pre-stage* primary.  For the priority-confirmation and quick-win
stages (one `map` pass, each row mutated at most once) this is also the
primary held immediately before the change; for the manual batch stage the
old POS is read from the pre-loop snapshot, which coincides with the
immediately-prior primary unless several decisions alias to one entry. -/
theorem C5_pos_change_sets_secondary :
    (∀ (pre : String) (wb : List Entry) (cs : List ConfirmRow) (i : Nat)
        (e1 e2 : Entry), wb[i]? = some e1 →
        (confirm_apply pre wb cs)[i]? = some e2 →
        e2.pos ≠ e1.pos → e2.pos_secondary = clean_text e1.pos) ∧
    (∀ (wb : List Entry) (qs : List QuickwinRow) (i : Nat) (e1 e2 : Entry),
        wb[i]? = some e1 → (quickwin_apply wb qs)[i]? = some e2 →
        e2.pos ≠ e1.pos → e2.pos_secondary = clean_text e1.pos) ∧
    (∀ (wb : List Entry) (files : List (String × List BatchRow)) (i : Nat)
        (e1 e2 : Entry), wb[i]? = some e1 →
        ((apply_manual_batch_decisions wb files).2.1)[i]? = some e2 →
        e2.pos ≠ e1.pos → e2.pos_secondary = clean_text e1.pos) := by
  refine ⟨?_, ?_, ?_⟩
  · intro pre wb cs i e1 e2 h1 h2 hne
    unfold confirm_apply at h2
    rw [List.getElem?_map, h1] at h2
    have he2 := Option.some.inj h2
    dsimp only at he2
    rcases hcl : changedLookup cs (clean_text e1.entry_id) with _ | payload
    · rw [hcl] at he2
      dsimp only at he2
      exact absurd (congrArg Entry.pos he2.symm) hne
    · rw [hcl] at he2
      dsimp only at he2
      by_cases hif : clean_text payload.confirmed_pos = ""
          ∨ clean_text payload.confirmed_pos = clean_text e1.pos
      · rw [if_pos hif] at he2
        exact absurd (congrArg Entry.pos he2.symm) hne
      · rw [if_neg hif] at he2
        rw [← he2]
  · intro wb qs i e1 e2 h1 h2 hne
    unfold quickwin_apply at h2
    rw [List.getElem?_map, h1] at h2
    have he2 := Option.some.inj h2
    dsimp only at he2
    rcases hcl : ((quickwinRecords wb qs).reverse).find?
        (fun pr => pr.1 == clean_text e1.entry_id) with _ | pr
    · rw [hcl] at he2
      dsimp only at he2
      exact absurd (congrArg Entry.pos he2.symm) hne
    · rw [hcl] at he2
      dsimp only at he2
      rw [← he2]
  · intro wb files i e1 e2 h1 h2 hne
    have h2a : (applyWb wb (dedupCandidates (candidatesOf files)) wb)[i]?
        = some e2 := h2
    rcases applyWb_sec_inv wb (dedupCandidates (candidatesOf files)) wb rfl
        (fun i' e1' e2' ha hb =>
          Or.inl (Option.some.inj (hb.symm.trans ha)))
        i e1 e2 h1 h2a with he | hsec
    · exact absurd (congrArg Entry.pos he) hne
    · exact hsec

/-- C5 witness: the adjective fixture entry changed by each of the three
stages; in every case the secondary becomes the cleaned prior primary. -/
theorem C5_witness :
    ((confirm_apply "priority_rule" wbX csW).headD dX).pos_secondary
      = clean_text (wbX.headD dX).pos ∧
    ((quickwin_apply wbX qsW).headD dX).pos_secondary
      = clean_text (wbX.headD dX).pos ∧
    (((apply_manual_batch_decisions wbX fsW).2.1).headD dX).pos_secondary
      = clean_text (wbX.headD dX).pos :=
  ⟨C5_pos_change_sets_secondary.1 "priority_rule" wbX csW 0 _ _
      (by decide) (by decide) (by decide),
   C5_pos_change_sets_secondary.2.1 wbX qsW 0 _ _
      (by decide) (by decide) (by decide),
   C5_pos_change_sets_secondary.2.2 wbX fsW 0 _ _
      (by decide) (by decide) (by decide)⟩

/-- C7 witness: two decisions with the same id from two well-formed batch file
names, in both input orders. -/
theorem C7_witness :
    (([⟨"WB000001", "", "", "verb", "", "", "done", "POS_MANUAL_BATCH_001.csv", 1⟩,
       ⟨"WB000001", "", "", "noun", "", "", "done", "POS_MANUAL_BATCH_002.csv", 1⟩] :
      List Candidate).Perm
      [⟨"WB000001", "", "", "noun", "", "", "done", "POS_MANUAL_BATCH_002.csv", 1⟩,
       ⟨"WB000001", "", "", "verb", "", "", "done", "POS_MANUAL_BATCH_001.csv", 1⟩]) ∧
    dedupCandidates
      [⟨"WB000001", "", "", "verb", "", "", "done", "POS_MANUAL_BATCH_001.csv", 1⟩,
       ⟨"WB000001", "", "", "noun", "", "", "done", "POS_MANUAL_BATCH_002.csv", 1⟩] =
    dedupCandidates
      [⟨"WB000001", "", "", "noun", "", "", "done", "POS_MANUAL_BATCH_002.csv", 1⟩,
       ⟨"WB000001", "", "", "verb", "", "", "done", "POS_MANUAL_BATCH_001.csv", 1⟩] :=
  ⟨by decide, (C7_dedup_last_write_wins _ _ (by decide) (by decide)).1⟩

end WB
